import Mathlib

/-!
Verification development for the ELBIX AIDD distribution-network design
pipeline. Each section shallowly embeds one module of the Python source
(app/core and app/utils); machine floats are idealised as real numbers,
rational-valued computations are kept over the rationals so that concrete
instances evaluate by decide or rfl. Theorems at the end settle the frozen
claims C1 .. C10 about the pipeline.
-/

namespace AIDD

/-! ### Cost calculator, discrete part (app/core/cost_calculator.py)

CostResultE keeps exactly the fields of CostResult that the ranking step of
calculate_batch touches: the composite score cost_index and the rank that the
batch step assigns.  rankBatch embeds the tail of calculate_batch:
results.sort(key=lambda r: r.cost_index) followed by rank = i + 1. -/

structure CostResultE where
  cost_index : ℤ
  rank : ℕ
  deriving Repr, DecidableEq, Inhabited

/-- Sort order used by calculate_batch: ascending cost_index. -/
def costLe (a b : CostResultE) : Prop := a.cost_index ≤ b.cost_index

instance : DecidableRel costLe := fun a b => by unfold costLe; infer_instance

instance : IsTotal CostResultE costLe := ⟨fun a b => Int.le_total a.cost_index b.cost_index⟩

instance : IsTrans CostResultE costLe := ⟨fun _ _ _ h1 h2 => le_trans h1 h2⟩

/-- Tail of CostCalculator.calculate_batch: sort the cost results ascending by
cost_index, then assign rank = position + 1. -/
def rankBatch (results : List CostResultE) : List CostResultE :=
  let sorted := List.insertionSort costLe results
  sorted.enum.map (fun p => { p.2 with rank := p.1 + 1 })

/-! ### Transformer capacity parsing (app/core/preprocessor.py)

_parse_transformer_capacity uppercases the TEXT_GIS_ANNXN value and sums
A times B over all regex matches of (digits)X(digits); the scanner below
implements exactly the semantics of re.findall for that pattern: at each
position try an anchored match (maximal first digit run, which must be
followed directly by X, then a nonempty digit run), on success continue after
the match, on failure advance one character. -/

/-- Numeric value of a digit string, as accumulated left to right. -/
def natOfDigits (l : List Char) : ℕ := l.foldl (fun a c => 10 * a + (c.toNat - 48)) 0

/-- Anchored match of the pattern (digits)X(digits) at the head of the list:
returns the two numbers and the remaining characters. -/
def tryMatchAxB (s : List Char) : Option (ℕ × ℕ × List Char) :=
  match s.span Char.isDigit with
  | ([], _) => none
  | (d1, rest1) =>
    match rest1 with
    | 'X' :: rest2 =>
      match rest2.span Char.isDigit with
      | ([], _) => none
      | (d2, rest3) => some (natOfDigits d1, natOfDigits d2, rest3)
    | _ => none

/-- Left-to-right scan with non-overlapping matches (re.findall); fuel bounds
the recursion and is instantiated with the length of the string, which always
suffices because every step consumes at least one character. -/
def scanAxB : ℕ → List Char → ℚ
  | 0, _ => 0
  | _ + 1, [] => 0
  | fuel + 1, c :: cs =>
    match tryMatchAxB (c :: cs) with
    | some (a, b, rest) => (a : ℚ) * (b : ℚ) + scanAxB fuel rest
    | none => scanAxB fuel cs

/-- DataPreprocessor._parse_transformer_capacity: uppercase the annotation and
sum cap * count over all (digits)X(digits) matches. -/
def parseTransformerCapacity (s : List Char) : ℚ :=
  let u := s.map Char.toUpper
  scanAxB u.length u

/-- Annotation text built from AxB tokens joined by a single separator
character, used to state the claim about the parser. -/
def joinTokens : List (List Char × List Char) → Char → List Char
  | [], _ => []
  | [t], _ => t.1 ++ 'X' :: t.2
  | t :: t2 :: ts, sep => t.1 ++ 'X' :: (t.2 ++ sep :: joinTokens (t2 :: ts) sep)

/-- Python truthiness of an optional numeric field (None and 0 are falsy). -/
def truthyQ : Option ℚ → Bool
  | none => false
  | some v => decide (v ≠ 0)

/-- Python `a or b` on the two optional kVA fields. -/
def pyOrQ (a b : Option ℚ) : Option ℚ := if truthyQ a then a else b

/-- Capacity determination step of DataPreprocessor._process_transformers:
parse TEXT_GIS_ANNXN; when that yields 0.0, fall back to the first truthy
value among CAP_KVA and KVA. -/
def transformerCapacity (annxn : List Char) (capKva kva : Option ℚ) : ℚ :=
  let c := parseTransformerCapacity annxn
  if c = 0 then
    let val := pyOrQ capKva kva
    if truthyQ val then val.getD 0 else c
  else c

/-! ### HV line preprocessing (app/core/preprocessor.py _process_hv_lines)

Raw WFS features are modelled with the property keys the function reads.
Settings (app/config.py) defines no PHASE_MAPPING field, so the attribute
access settings.PHASE_MAPPING inside the per-feature loop raises
AttributeError; the surrounding try/except swallows it and the feature is
skipped.  settingsPhaseMapping models the missing class attribute as none. -/

/-- Geometry of a raw feature after shapely shape(): only the shape kind and
coordinates matter to the preprocessor. -/
inductive RawGeomE
  | lineString (coords : List (ℚ × ℚ))
  | point (p : ℚ × ℚ)
  | other
  deriving Repr, DecidableEq

/-- Property bag of a raw HV line feature, restricted to the keys that
_process_hv_lines reads. -/
structure HvFeatProps where
  fac_stat_cd : String
  remove_yn : Option String
  gid : Option String
  phar_clcd : String
  prwr_spec_cd : String
  volt_val : Option ℕ
  lwer_fac_gid : Option String
  uppo_fac_gid : Option String
  deriving Repr, DecidableEq

/-- A raw feature: property bag plus optional geometry. -/
structure RawFeatureE where
  props : HvFeatProps
  geom : Option RawGeomE
  deriving Repr, DecidableEq

/-- Processed Line entity, restricted to the fields asserted by the claims. -/
structure PLine where
  id : String
  coords : List (ℚ × ℚ)
  line_type : String
  phase_code : String
  is_obstacle : Bool
  is_service_drop : Bool
  deriving Repr, DecidableEq

/-- The Settings class in app/config.py defines no PHASE_MAPPING attribute at
all (it is referenced but never declared), modelled by none. -/
def settingsPhaseMapping : Option (List (String × String)) := none

/-- Body of the per-feature loop of DataPreprocessor._process_hv_lines.
Returns some line when the feature yields a Line entity, none when the
feature is skipped (filtered out or an exception was caught). -/
def processHvFeature (f : RawFeatureE) : Option PLine :=
  if f.props.fac_stat_cd ∈ ["D", "R", "DD", "RR"] then none
  else if f.props.remove_yn = some "Y" then none
  else
    match f.geom with
    | none => none
    | some (RawGeomE.point _) => none
    | some RawGeomE.other => none
    | some (RawGeomE.lineString coords) =>
      -- phase_code = settings.PHASE_MAPPING.get(phar_clcd, "1"):
      -- the attribute is undefined, AttributeError is raised and the
      -- enclosing try/except skips the feature.
      match settingsPhaseMapping with
      | none => none
      | some m =>
        some { id := f.props.gid.getD ""
               coords := coords
               line_type := "HV"
               phase_code := ((m.lookup f.props.phar_clcd).getD "1")
               is_obstacle := true
               is_service_drop := false }

/-- DataPreprocessor._process_hv_lines over a feature list. -/
def processHvLines (fs : List RawFeatureE) : List PLine :=
  fs.filterMap processHvFeature

/-! ### Obstacle validator (app/core/line_validator.py) over exact rationals

The geometric predicates implement the shapely relations used by
validate_path for polylines in general position (single-point contacts):
contacts enumerates the pairwise segment intersection points, a crossing is a
contact interior to both polylines, a touch is a contact configuration whose
points all lie on a boundary. -/

/-- Exact planar point. -/
abbrev Q2 : Type := ℚ × ℚ

/-- Cross product of (a - o) and (b - o). -/
def qcross (o a b : Q2) : ℚ := (a.1 - o.1) * (b.2 - o.2) - (a.2 - o.2) * (b.1 - o.1)

/-- Is p on the closed segment from a to b. -/
def onSegQ (p a b : Q2) : Bool :=
  decide (qcross a b p = 0 ∧ min a.1 b.1 ≤ p.1 ∧ p.1 ≤ max a.1 b.1 ∧
          min a.2 b.2 ≤ p.2 ∧ p.2 ≤ max a.2 b.2)

/-- Contact points of segments [a,b] and [c,d]: the single proper or touching
intersection point for non-parallel segments; for collinear segments the
endpoints of one that lie on the other (the general-position model for
dimension-zero contacts). -/
def segContacts (a b c d : Q2) : List Q2 :=
  let denom := (b.1 - a.1) * (d.2 - c.2) - (b.2 - a.2) * (d.1 - c.1)
  if denom = 0 then
    if qcross a b c = 0 then
      (([c, d].filter fun p => onSegQ p a b) ++ ([a, b].filter fun p => onSegQ p c d)).dedup
    else []
  else
    let t := ((c.1 - a.1) * (d.2 - c.2) - (c.2 - a.2) * (d.1 - c.1)) / denom
    let u := ((c.1 - a.1) * (b.2 - a.2) - (c.2 - a.2) * (b.1 - a.1)) / denom
    if 0 ≤ t ∧ t ≤ 1 ∧ 0 ≤ u ∧ u ≤ 1 then
      [(a.1 + t * (b.1 - a.1), a.2 + t * (b.2 - a.2))]
    else []

/-- Consecutive coordinate pairs of a polyline. -/
def segsOf : List Q2 → List (Q2 × Q2)
  | a :: b :: rest => (a, b) :: segsOf (b :: rest)
  | _ => []

/-- All contact points between two polylines (deduplicated). -/
def polyContacts (p q : List Q2) : List Q2 :=
  ((segsOf p).flatMap fun s1 => (segsOf q).flatMap fun s2 =>
    segContacts s1.1 s1.2 s2.1 s2.2).dedup

/-- Boundary points of a non-closed LineString: its two end vertices. -/
def lsBoundary (l : List Q2) : List Q2 := [l.headD (0, 0), l.getLastD (0, 0)]

/-- shapely intersects for two polylines. -/
def polyIntersects (p q : List Q2) : Bool := ¬ (polyContacts p q).isEmpty

/-- Some contact point lies in the interior of both polylines. -/
def polyInteriorContact (p q : List Q2) : Bool :=
  (polyContacts p q).any fun pt => pt ∉ lsBoundary p ∧ pt ∉ lsBoundary q

/-- shapely crosses for two polylines in general position. -/
def polyCrosses (p q : List Q2) : Bool := polyInteriorContact p q

/-- shapely touches: they intersect but the interiors are disjoint. -/
def polyTouches (p q : List Q2) : Bool := polyIntersects p q ∧ ¬ polyInteriorContact p q

/-- Substring test on char lists (Python `in` for strings). -/
def containsSub (s pat : List Char) : Bool :=
  (List.range (s.length + 1)).any fun i => pat.isPrefixOf (s.drop i)

/-- Existing line as seen by LineValidator: geometry plus the fields consulted
by the crossing check and the height estimate (TEXT_GIS_ANNXN from the
property bag). -/
structure VLine where
  id : String
  coords : List Q2
  line_type : String
  is_obstacle : Bool
  is_service_drop : Bool
  text_gis_annxn : String
  deriving Repr, DecidableEq

/-- LineValidator._estimate_height. -/
def estimateHeight (line_type : String) (annxn : String) : ℚ :=
  let t := annxn.toList.map Char.toUpper
  if containsSub t "EW".toList then 12
  else if line_type = "HV" then 10.5
  else if line_type = "LV" then 8.5
  else if containsSub t "ACSR".toList ∨ containsSub t "AL".toList then 10.5
  else if containsSub t "OW".toList ∨ containsSub t "AO".toList then 8.5
  else 9

/-- Per-axis nearness used by _is_endpoint_intersection (tolerance 2.5 m). -/
def isNearQ (pt ref : Q2) (tol : ℚ) : Bool :=
  decide (|pt.1 - ref.1| < tol ∧ |pt.2 - ref.2| < tol)

/-- LineValidator._is_endpoint_intersection: a single contact point (Point)
must be near the start or the end; several contact points (MultiPoint) must
all be near the start or the end; anything else is not an endpoint contact. -/
def isEndpointIntersection (contacts : List Q2) (path : List Q2) : Bool :=
  if path.isEmpty then false
  else
    let s := path.headD (0, 0)
    let e := path.getLastD (0, 0)
    match contacts with
    | [pt] => isNearQ pt s 2.5 || isNearQ pt e 2.5
    | [] => false
    | pts => pts.all fun pt => isNearQ pt s 2.5 || isNearQ pt e 2.5

/-- Lines retained by the validator constructor: geometry with at least two
coordinates. -/
def validatorLines (lines : List VLine) : List VLine :=
  lines.filter fun l => 2 ≤ l.coords.length

/-- Decision of LineValidator.validate_path for a single existing line: true
when the line is recorded as a blocking crossing. -/
def lineBlocks (newHeight : ℚ) (path : List Q2) (l : VLine) : Bool :=
  if ¬ l.is_obstacle then false
  else if polyIntersects path l.coords then
    if polyCrosses path l.coords ∨ (polyIntersects path l.coords ∧ ¬ polyTouches path l.coords) then
      if isEndpointIntersection (polyContacts path l.coords) path then false
      else
        let existing := estimateHeight l.line_type l.text_gis_annxn
        if 1.5 ≤ |newHeight - existing| then false
        else true
    else false
  else false

/-- LineValidator.validate_path: the new conductor height comes from the
requested line type (HV for a three-phase request); the path is valid iff no
retained line is recorded as a blocking crossing. -/
def validatePath (lines : List VLine) (path : List Q2) (newLineType : String) : Bool :=
  if path.length < 2 then true
  else
    let newHeight : ℚ := if newLineType = "HV" then 10.5 else 8.5
    ((validatorLines lines).filter (lineBlocks newHeight path)).isEmpty

/-- The claim C7 validity predicate, following the spec wording: every
intersection point with an existing line is exempt because the line is not an
obstacle, or the point is exactly the start or end point of the path, or the
estimated height difference is at least 1.5 m. -/
def specPathValid (lines : List VLine) (path : List Q2) (newLineType : String) : Prop :=
  ∀ l ∈ lines, ∀ pt ∈ polyContacts path l.coords,
    l.is_obstacle = false ∨ pt = path.headD (0, 0) ∨ pt = path.getLastD (0, 0) ∨
      1.5 ≤ |(if newLineType = "HV" then (10.5 : ℚ) else 8.5) -
        estimateHeight l.line_type l.text_gis_annxn|

/-! ### Geometry utilities over the reals

From here on the embedding mirrors the float computations of
app/utils/coordinate.py and app/utils/geometry.py with exact real
arithmetic; branch conditions on reals are decided classically. -/

open scoped Classical

noncomputable section

/-- Planar point (floats idealised as reals). -/
abbrev Pt : Type := ℝ × ℝ

/-- calculate_distance (app/utils/coordinate.py): Euclidean distance. -/
def calculate_distance (x1 y1 x2 y2 : ℝ) : ℝ :=
  Real.sqrt ((x2 - x1) ^ 2 + (y2 - y1) ^ 2)

/-- Distance between two points. -/
def pdist (a b : Pt) : ℝ := calculate_distance a.1 a.2 b.1 b.2

/-- shapely LineString.length: sum of consecutive segment lengths. -/
def polyLength : List Pt → ℝ
  | a :: b :: rest => pdist a b + polyLength (b :: rest)
  | _ => 0

/-- shapely LineString.interpolate at arc length pos (for 0 ≤ pos; beyond the
end the last vertex is returned). -/
def interpolate : List Pt → ℝ → Pt
  | [], _ => (0, 0)
  | [a], _ => a
  | a :: b :: rest, pos =>
    let d := pdist a b
    if pos ≤ d then
      if d = 0 then a
      else (a.1 + (pos / d) * (b.1 - a.1), a.2 + (pos / d) * (b.2 - a.2))
    else interpolate (b :: rest) (pos - d)

/-- calculate_angle (app/utils/geometry.py): angle at p2 in degrees, with the
cosine clamped to [-1, 1] before acos; degenerate vectors give 0. -/
def calculate_angle (p1 p2 p3 : Pt) : ℝ :=
  let v1 : Pt := (p1.1 - p2.1, p1.2 - p2.2)
  let v2 : Pt := (p3.1 - p2.1, p3.2 - p2.2)
  let dot := v1.1 * v2.1 + v1.2 * v2.2
  let mag1 := Real.sqrt (v1.1 ^ 2 + v1.2 ^ 2)
  let mag2 := Real.sqrt (v2.1 ^ 2 + v2.2 ^ 2)
  if mag1 = 0 ∨ mag2 = 0 then 0
  else (180 / Real.pi) * Real.arccos (max (-1) (min 1 (dot / (mag1 * mag2))))

/-- Python int() truncation toward zero, on an idealised float. -/
def pyInt (x : ℝ) : ℤ := if 0 ≤ x then ⌊x⌋ else -⌊-x⌋

/-! ### Settings constants (app/config.py) used by the embedded modules. -/

def MAX_DISTANCE_LIMIT : ℝ := 400

def FAST_TRACK_DISTANCE : ℝ := 50

def POLE_INTERVAL : ℝ := 40

def FIRST_POLE_MAX_DISTANCE : ℝ := 30

def ROAD_ACCESS_DISTANCE : ℝ := 100

def ROAD_SNAP_DISTANCE : ℝ := 10

def WEIGHT_DISTANCE : ℝ := 1

def COST_POLE : ℝ := 500000

def SCORE_WEIGHT_POLE : ℤ := 10000

def SCORE_WEIGHT_DISTANCE : ℝ := 1

def SCORE_WEIGHT_TURN : ℤ := 50

/-! ### Pole allocator (app/core/pole_allocator.py) -/

/-- Minimum clearance kept to the existing terminating pole. -/
def MIN_DISTANCE_TO_EXISTING_POLE : ℝ := 15

/-- PoleAllocator._calculate_pole_count: the PRD 4.1 formula
N = 1 + ceil((D - 30) / 40) for D beyond the first span. -/
def calculatePoleCount (total_distance : ℝ) : ℕ :=
  if total_distance ≤ FIRST_POLE_MAX_DISTANCE then 1
  else 1 + ⌈(total_distance - FIRST_POLE_MAX_DISTANCE) / POLE_INTERVAL⌉₊

/-- The while loop of _calculate_pole_positions: positions current, current +
interval, ... while current ≤ effective.  The fuel argument only bounds the
iteration count and is instantiated large enough at the call site. -/
def posLoop : ℕ → ℝ → ℝ → List ℝ
  | 0, _, _ => []
  | fuel + 1, current, effective =>
    if current ≤ effective then current :: posLoop fuel (current + POLE_INTERVAL) effective
    else []

/-- PoleAllocator._calculate_pole_positions (it depends on the path only
through its total length): pole at 0, poles every 40 m up to the effective
length (total minus the 15 m buffer), and one extra pole at the effective
length when the remaining span to the existing pole exceeds 40 m. -/
def calculatePolePositions (total_length : ℝ) : List ℝ :=
  if total_length ≤ MIN_DISTANCE_TO_EXISTING_POLE then [0]
  else
    let effective := total_length - MIN_DISTANCE_TO_EXISTING_POLE
    if effective ≤ POLE_INTERVAL then [0]
    else
      let positions := 0 :: posLoop (⌊effective / POLE_INTERVAL⌋₊ + 1) POLE_INTERVAL effective
      let last := positions.getLastD 0
      if POLE_INTERVAL < total_length - last then
        if last < effective then positions ++ [effective] else positions
      else positions

/-- PoleAllocator._find_junctions walk: p1 is the previous vertex, the list
holds the current vertex and its successors, cum the distance accumulated up
to p1; a vertex whose angle is below 150 degrees is a junction. -/
def findJunctionsAux : Pt → List Pt → ℝ → List (ℝ × Bool)
  | p1, p2 :: p3 :: rest, cum =>
    let cum2 := cum + pdist p1 p2
    let tail := findJunctionsAux p2 (p3 :: rest) cum2
    if calculate_angle p1 p2 p3 < 150 then (cum2, true) :: tail else tail
  | _, _, _ => []

/-- PoleAllocator._find_junctions: interior vertices with a turn angle below
the 150 degree threshold, with their cumulative distances. -/
def findJunctions : List Pt → List (ℝ × Bool)
  | p1 :: p2 :: p3 :: rest => findJunctionsAux p1 (p2 :: p3 :: rest) 0
  | _ => []

/-- Merge loop of PoleAllocator._merge_positions with the accumulator kept
reversed (the head of acc is the last merged element): a position within the
10 m merge threshold of the previous one is dropped, except that a junction
replaces a previous non-junction. -/
def mergeLoop : List (ℝ × Bool) → List (ℝ × Bool) → List (ℝ × Bool)
  | acc, [] => acc.reverse
  | [], x :: xs => mergeLoop [x] xs
  | (lp, lj) :: accTail, (pos, isj) :: xs =>
    if |pos - lp| < 10 then
      if isj ∧ ¬ lj then mergeLoop ((pos, true) :: accTail) xs
      else mergeLoop ((lp, lj) :: accTail) xs
    else mergeLoop ((pos, isj) :: (lp, lj) :: accTail) xs

/-- Sort order of _merge_positions: by position (the sort key x[0]). -/
def posOrder (a b : ℝ × Bool) : Prop := a.1 ≤ b.1

instance : DecidableRel posOrder := fun _ _ => Classical.propDecidable _

instance : IsTotal (ℝ × Bool) posOrder := ⟨fun a b => le_total a.1 b.1⟩

instance : IsTrans (ℝ × Bool) posOrder := ⟨fun _ _ _ h1 h2 => le_trans h1 h2⟩

/-- PoleAllocator._merge_positions: tag the regular positions, append the
junction positions, sort by position, then merge nearby positions. -/
def mergePositions (regular : List ℝ) (junctions : List (ℝ × Bool)) : List (ℝ × Bool) :=
  let all := (regular.map fun p => (p, false)) ++ junctions
  mergeLoop [] (List.insertionSort posOrder all)

/-- Path handed to the allocator (fields of PathResult that allocate reads). -/
structure PathResultE where
  path_coords : List Pt
  total_distance : ℝ
  is_reachable : Bool
  is_fast_track : Bool

/-- New pole produced by the allocator (the global id counter is dropped; the
sequence number identifies the pole within the allocation). -/
structure NewPoleE where
  sequence : ℕ
  coord : Pt
  distance_from_consumer : ℝ
  is_junction : Bool

/-- Allocation result. -/
structure AllocationResultE where
  path_result : PathResultE
  new_poles : List NewPoleE
  total_wire_length : ℝ
  turn_count : ℕ

/-- Pole construction loop of PoleAllocator.allocate: walk the merged
positions, interpolate the coordinate, and accumulate the distance from the
previous pole coordinate. -/
def buildPoles (path : List Pt) : List (ℝ × Bool) → ℕ → Pt → ℝ → List NewPoleE
  | [], _, _, _ => []
  | (pos, isj) :: rest, i, prev, cum =>
    let coord := interpolate path pos
    let cum2 := cum + pdist prev coord
    { sequence := i + 1, coord := coord, distance_from_consumer := cum2, is_junction := isj }
      :: buildPoles path rest (i + 1) coord cum2

/-- Merged pole positions of an allocated path: uniform positions from the
total length, junctions filtered to the effective length, merged. -/
def allocPositions (path : List Pt) : List (ℝ × Bool) :=
  let total_length := polyLength path
  let effective := total_length - MIN_DISTANCE_TO_EXISTING_POLE
  mergePositions (calculatePolePositions total_length)
    ((findJunctions path).filter fun x => x.1 ≤ effective)

/-- PoleAllocator.allocate. -/
def allocate (pr : PathResultE) : AllocationResultE :=
  if ¬ pr.is_reachable then ⟨pr, [], 0, 0⟩
  else if pr.path_coords.length < 2 then ⟨pr, [], 0, 0⟩
  else if pr.is_fast_track then
    let consumer := pr.path_coords.headD (0, 0)
    ⟨pr, [⟨1, consumer, 0, false⟩], pr.total_distance, 0⟩
  else
    let path := pr.path_coords
    let total_length := polyLength path
    let new_poles := buildPoles path (allocPositions path) 0 (path.headD (0, 0)) 0
    ⟨pr, new_poles, total_length, (findJunctions path).length⟩

/-! ### Cost index (app/core/cost_calculator.py _calculate_cost_index) -/

/-- CostCalculator._calculate_cost_index: poles * W_pole + int(distance *
W_dist) + turns * W_turn; Python int() truncates the distance term. -/
def calculateCostIndex (poles_count : ℕ) (distance : ℝ) (turn_count : ℕ) : ℤ :=
  (poles_count : ℤ) * SCORE_WEIGHT_POLE + pyInt (distance * SCORE_WEIGHT_DISTANCE) +
    (turn_count : ℤ) * SCORE_WEIGHT_TURN

/-! ### Target selector (app/core/target_selector.py) -/

/-- Pole entity fields read by the selector (enrichment fields included). -/
structure SPole where
  id : String
  coord : Pt
  pole_type : Option String
  phase_code : Option String
  voltage : Option ℝ
  has_transformer : Bool

/-- Line entity fields read by the selector. -/
structure SLine where
  id : String
  line_type : Option String
  phase_code : Option String
  voltage : Option ℝ
  start_pole_id : Option String
  end_pole_id : Option String

/-- Line.is_high_voltage: voltage at least 1000 when present, else the
line_type marker. -/
def lineIsHV (l : SLine) : Prop :=
  match l.voltage with
  | some v => 1000 ≤ v
  | none => l.line_type = some "H" ∨ l.line_type = some "HV" ∨ l.line_type = some "고압"

/-- A line is attached to the pole id at either endpoint. -/
def lineAt (l : SLine) (pid : String) : Prop :=
  l.start_pole_id = some pid ∨ l.end_pole_id = some pid

/-- has_lv flag of _analyze_pole_connections. -/
def connHasLv (lines : List SLine) (pid : String) : Prop :=
  ∃ l ∈ lines, lineAt l pid ∧ ¬ lineIsHV l

/-- has_hv flag of _analyze_pole_connections. -/
def connHasHv (lines : List SLine) (pid : String) : Prop :=
  ∃ l ∈ lines, lineAt l pid ∧ lineIsHV l

/-- has_hv_3phase flag of _analyze_pole_connections. -/
def connHasHv3 (lines : List SLine) (pid : String) : Prop :=
  ∃ l ∈ lines, lineAt l pid ∧ lineIsHV l ∧ l.phase_code = some "3"

/-- Building as seen through the shapely interface: its closed region and its
boundary as point sets. -/
structure BuildingE where
  region : Set Pt
  boundary : Set Pt

/-- Points of the closed segment from a to b. -/
def segPts (a b : Pt) : Set Pt :=
  {p | ∃ t : ℝ, 0 ≤ t ∧ t ≤ 1 ∧ p = (a.1 + t * (b.1 - a.1), a.2 + t * (b.2 - a.2))}

/-- TargetSelector._check_obstacle: some building both intersects the direct
segment and does so beyond a mere boundary touch. -/
def checkObstacle (buildings : List BuildingE) (s e : Pt) : Prop :=
  ∃ bl ∈ buildings, (∃ p ∈ segPts s e, p ∈ bl.region) ∧
    ¬ ((∃ p ∈ segPts s e, p ∈ bl.region) ∧ ∀ p ∈ segPts s e, p ∈ bl.region → p ∈ bl.boundary)

/-- Single-phase candidate pool (_get_single_phase_connectable_poles): poles
attached to any line, LV-attached poles moved to the front, deduplicated by
id in traversal order. -/
def singlePhasePoles (poles : List SPole) (lines : List SLine) : List SPole :=
  poles.foldl
    (fun acc pole =>
      if ¬ ∃ l ∈ lines, lineAt l pole.id then acc
      else if ∃ q ∈ acc, q.id = pole.id then acc
      else if connHasLv lines pole.id then pole :: acc
      else acc ++ [pole])
    []

/-- Three-phase candidate pool (_get_three_phase_connected_poles): poles
attached to an HV line, excluding LV-only poles, poles on a three-phase HV
line moved to the front, deduplicated by id. -/
def threePhasePoles (poles : List SPole) (lines : List SLine) : List SPole :=
  poles.foldl
    (fun acc pole =>
      if ¬ connHasHv lines pole.id then acc
      else if connHasLv lines pole.id ∧ ¬ connHasHv lines pole.id then acc
      else if connHasHv3 lines pole.id then
        if ∃ q ∈ acc, q.id = pole.id then acc else pole :: acc
      else
        if ∃ q ∈ acc, q.id = pole.id then acc else acc ++ [pole])
    []

/-- TargetSelector._phase_matching. -/
def phaseMatching (poles : List SPole) (lines : List SLine) (phase_code : String) :
    List SPole :=
  if phase_code = "3" then threePhasePoles poles lines
  else singlePhasePoles poles lines

/-- Candidate pole wrapper (TargetPole fields used by select). -/
structure STarget where
  pole : SPole
  distance_to_consumer : ℝ
  is_fast_track : Bool
  has_obstacle : Bool
  priority : ℤ

/-- Step 4 of TargetSelector.select: priority from truncated distance and the
attached-conductor adjustments. -/
def stepFourPriority (phase_code : String) (lines : List SLine) (p : SPole) (d : ℝ) : ℤ :=
  let pr0 : ℤ := pyInt d
  if phase_code = "1" then
    if connHasLv lines p.id then pr0 - 100
    else if connHasHv lines p.id ∧ ¬ connHasLv lines p.id then pr0 + 50
    else pr0
  else
    let pr1 : ℤ :=
      if connHasHv3 lines p.id then pr0 - 100
      else if connHasHv lines p.id then pr0 - 50
      else pr0
    if p.phase_code = some "3" then pr1 - 20 else pr1

/-- Sort order of Step 5: ascending (priority, distance) lexicographically. -/
def targetOrder (a b : STarget) : Prop :=
  a.priority < b.priority ∨
    (a.priority = b.priority ∧ a.distance_to_consumer ≤ b.distance_to_consumer)

instance : DecidableRel targetOrder := fun _ _ => Classical.propDecidable _

instance : IsTotal STarget targetOrder := by
  constructor
  intro a b
  unfold targetOrder
  rcases lt_trichotomy a.priority b.priority with h | h | h
  · exact Or.inl (Or.inl h)
  · rcases le_total a.distance_to_consumer b.distance_to_consumer with hd | hd
    · exact Or.inl (Or.inr ⟨h, hd⟩)
    · exact Or.inr (Or.inr ⟨h.symm, hd⟩)
  · exact Or.inr (Or.inl h)

instance : IsTrans STarget targetOrder := by
  constructor
  intro a b c hab hbc
  unfold targetOrder at *
  rcases hab with h1 | ⟨h1, h1d⟩ <;> rcases hbc with h2 | ⟨h2, h2d⟩
  · exact Or.inl (lt_trans h1 h2)
  · exact Or.inl (h2 ▸ h1)
  · exact Or.inl (h1 ▸ h2)
  · exact Or.inr ⟨h1.trans h2, le_trans h1d h2d⟩

/-- Step 3 of TargetSelector.select for one candidate: within the fast-track
distance, check the sight line; with no obstacle the candidate becomes a
fast-track target of priority 0. -/
def stepThreeFlag (buildings : List BuildingE) (consumer : Pt) (t : STarget) : STarget :=
  if t.distance_to_consumer ≤ FAST_TRACK_DISTANCE then
    if ¬ checkObstacle buildings consumer t.pole.coord then
      { t with has_obstacle := false, is_fast_track := true, priority := 0 }
    else { t with has_obstacle := true }
  else t

/-- Step 4 of TargetSelector.select for one candidate: non-fast-track
candidates get the distance-and-connection priority. -/
def stepFourAssign (phase_code : String) (lines : List SLine) (t : STarget) : STarget :=
  if ¬ t.is_fast_track then
    { t with priority := stepFourPriority phase_code lines t.pole t.distance_to_consumer }
  else t

/-- TargetSelector.select, returning the ranked target list: phase matching,
the 400 m distance gate, fast-track marking within 50 m, priorities for the
remaining candidates, and the final sort. -/
def selectTargets (poles : List SPole) (lines : List SLine) (buildings : List BuildingE)
    (consumer : Pt) (phase_code : String) : List STarget :=
  let matched := phaseMatching poles lines phase_code
  let gated := matched.filterMap fun pole =>
    let d := pdist consumer pole.coord
    if MAX_DISTANCE_LIMIT < d then none
    else some (⟨pole, d, false, false, 0⟩ : STarget)
  let flagged := gated.map (stepThreeFlag buildings consumer)
  let prioritised := flagged.map (stepFourAssign phase_code lines)
  List.insertionSort targetOrder prioritised

/-- The claim C2 scoring model, following the spec table: the score starts at
the Euclidean distance and each satisfied condition subtracts its bonus. -/
def specScore (phase_code : String) (lines : List SLine) (p : SPole) (d : ℝ) : ℝ :=
  d - ((if phase_code = "3" ∧ p.has_transformer ∧ p.phase_code = some "3" then 150 else 0)
    + (if phase_code = "3" ∧ connHasHv3 lines p.id then 100 else 0)
    + (if phase_code ≠ "3" ∧ p.has_transformer then 100 else 0)
    + (if phase_code ≠ "3" ∧ connHasLv lines p.id then 50 else 0))

/-! ### Road graph builder (app/core/graph_builder.py) -/

/-- Graph node. -/
structure GNode where
  id : String
  coord : Pt

/-- Graph edge with the attributes add_edge records; geomSeg is the straight
segment geometry when the geometry keyword was passed. -/
structure GEdge where
  u : String
  v : String
  distance : ℝ
  weight : ℝ
  edge_type : String
  geomSeg : Option (Pt × Pt)

/-- RoadGraphBuilder._calculate_weight: distance * WEIGHT_DISTANCE +
(distance / POLE_INTERVAL) * COST_POLE / 100. -/
def calcEdgeWeight (distance : ℝ) : ℝ :=
  distance * WEIGHT_DISTANCE + distance / POLE_INTERVAL * COST_POLE / 100

/-- Road segment edges of _build_road_graph: one edge per consecutive vertex
pair, weighted from the segment length (node identity is by coordinate). -/
def roadEdges (roads : List (List Pt)) : List GEdge :=
  roads.flatMap fun coords =>
    if coords.length < 2 then []
    else
      (coords.zip coords.tail).map fun s =>
        { u := "", v := "", distance := pdist s.1 s.2,
          weight := calcEdgeWeight (pdist s.1 s.2), edge_type := "road",
          geomSeg := some (s.1, s.2) }

/-- Graph state consulted by _connect_point_to_road. -/
structure GGraph where
  nodes : List GNode
  edges : List GEdge

/-- Coordinate of a node id (the ids used in the embedding always resolve). -/
def nodeCoord (g : GGraph) (idv : String) : Pt :=
  ((g.nodes.find? fun n => n.id = idv).map fun n => n.coord).getD (0, 0)

/-- shapely nearest_points of a point and a straight segment: the clamped
orthogonal projection. -/
def nearestPtOnSeg (p a b : Pt) : Pt :=
  let den := (b.1 - a.1) ^ 2 + (b.2 - a.2) ^ 2
  if den = 0 then a
  else
    let t := max 0 (min 1 (((p.1 - a.1) * (b.1 - a.1) + (p.2 - a.2) * (b.2 - a.2)) / den))
    (a.1 + t * (b.1 - a.1), a.2 + t * (b.2 - a.2))

/-- One step of the nearest-edge fold of _connect_point_to_road: skip edges
that are neither road nor snap, otherwise keep the strictly closest
attachment point (edges without geometry fall back to the segment between
their node coordinates). -/
def nearestEdgeStep (g : GGraph) (p : Pt) (acc : Option (GEdge × Pt × ℝ)) (e : GEdge) :
    Option (GEdge × Pt × ℝ) :=
  if e.edge_type ≠ "road" ∧ e.edge_type ≠ "snap" then acc
  else
    let seg := e.geomSeg.getD (nodeCoord g e.u, nodeCoord g e.v)
    let np := nearestPtOnSeg p seg.1 seg.2
    let d := pdist p np
    match acc with
    | none => some (e, np, d)
    | some (_, _, dmin) => if d < dmin then some (e, np, d) else acc

/-- Nearest road or snap edge search of _connect_point_to_road. -/
def findNearestEdge (g : GGraph) (p : Pt) : Option (GEdge × Pt × ℝ) :=
  g.edges.foldl (nearestEdgeStep g p) none

/-- RoadGraphBuilder._connect_point_to_road: none models returning False.
When the attachment point is within 1 m of an edge endpoint that node is
reused and a single connection edge of weight calcEdgeWeight(min_distance) is
added; otherwise a junction node J is created at the attachment point and the
road edge is split (in the modelled scenarios no other node lies within the
1 m merge tolerance of the attachment point). -/
def connectPointToRoad (g : GGraph) (point : Pt) (pid : String) : Option (List GEdge) :=
  match findNearestEdge g point with
  | none => none
  | some (e, np, dmin) =>
    if ROAD_ACCESS_DISTANCE < dmin then none
    else if pdist np (nodeCoord g e.u) < 1 then
      some [⟨pid, e.u, dmin, calcEdgeWeight dmin, "connection", none⟩]
    else if pdist np (nodeCoord g e.v) < 1 then
      some [⟨pid, e.v, dmin, calcEdgeWeight dmin, "connection", none⟩]
    else
      let du := pdist np (nodeCoord g e.u)
      let dv := pdist np (nodeCoord g e.v)
      some [⟨pid, "J", dmin, calcEdgeWeight dmin, "connection", none⟩,
            ⟨"J", e.u, du, calcEdgeWeight du, "road", none⟩,
            ⟨"J", e.v, dv, calcEdgeWeight dv, "road", none⟩]

/-- Pathfinder._euclidean_heuristic: straight-line distance between the two
node coordinates. -/
def euclideanHeuristic (g : GGraph) (nodeId targetId : String) : ℝ :=
  pdist (nodeCoord g nodeId) (nodeCoord g targetId)

/-- A one-road-edge graph: road from N1 at (1,2) to N2 at (11,2), exercising
the node-reuse branch of _connect_point_to_road. -/
def gC10 : GGraph :=
  { nodes := [⟨"N1", (1, 2)⟩, ⟨"N2", (11, 2)⟩],
    edges := [⟨"N1", "N2", 10, calcEdgeWeight 10, "road", some ((1, 2), (11, 2))⟩] }

end

/-! ## Theorems -/

/-! ### Helper lemmas for the batch ranking (C5) -/

theorem rankBatch_length (l : List CostResultE) : (rankBatch l).length = l.length := by
  simp [rankBatch, List.length_insertionSort]

theorem rankBatch_get (l : List CostResultE) (i : ℕ) (h : i < (rankBatch l).length) :
    (rankBatch l).get ⟨i, h⟩ =
      { (List.insertionSort costLe l).get
          ⟨i, by simpa [rankBatch, List.length_insertionSort] using h⟩ with rank := i + 1 } := by
  simp [rankBatch, List.get_eq_getElem, List.getElem_map, List.getElem_enum]

/-- C5: the batch of cost results is sorted ascending by cost index and ranks
are assigned 1..N in list order, so adjacent cost indices are monotone. -/
theorem C5_batch_sorted_ranked (l : List CostResultE) (i : ℕ) :
    (i + 1 < (rankBatch l).length →
      ((rankBatch l).getD i default).cost_index ≤
        ((rankBatch l).getD (i + 1) default).cost_index) ∧
    (i < (rankBatch l).length → ((rankBatch l).getD i default).rank = i + 1) := by
  constructor
  · intro h
    have h0 : i < (rankBatch l).length := Nat.lt_of_succ_lt h
    rw [List.getD_eq_getElem?_getD, List.getElem?_eq_getElem h0,
        List.getD_eq_getElem?_getD, List.getElem?_eq_getElem h]
    have hs : (List.insertionSort costLe l).Sorted costLe :=
      List.sorted_insertionSort costLe l
    have hlen : i + 1 < (List.insertionSort costLe l).length := by
      simpa [rankBatch, List.length_insertionSort] using h
    have hrel := hs.rel_get_of_lt
      (a := ⟨i, Nat.lt_of_succ_lt hlen⟩) (b := ⟨i + 1, hlen⟩) (by simp)
    have e1 := rankBatch_get l i h0
    have e2 := rankBatch_get l (i + 1) h
    simp only [List.get_eq_getElem] at e1 e2
    rw [e1, e2]
    exact hrel
  · intro h
    rw [List.getD_eq_getElem?_getD, List.getElem?_eq_getElem h]
    have e1 := rankBatch_get l i h
    simp only [List.get_eq_getElem] at e1
    rw [e1]
    rfl

/-- C5 witness: the theorem applied to a concrete two-element batch. -/
theorem C5_batch_sorted_ranked_witness :
    ((rankBatch [⟨7, 0⟩, ⟨3, 0⟩]).getD 0 default).cost_index ≤
        ((rankBatch [⟨7, 0⟩, ⟨3, 0⟩]).getD 1 default).cost_index ∧
      ((rankBatch [⟨7, 0⟩, ⟨3, 0⟩]).getD 0 default).rank = 1 :=
  ⟨(C5_batch_sorted_ranked [⟨7, 0⟩, ⟨3, 0⟩] 0).1 (by decide),
   (C5_batch_sorted_ranked [⟨7, 0⟩, ⟨3, 0⟩] 0).2 (by decide)⟩

/-! ### C4: composite cost index -/

/-- C4 counterexample: at distance 100.6 m the code truncates the distance
term (index 10100) while the claim rounds it to the nearest integer
(index 10101). -/
theorem C4_counterexample :
    calculateCostIndex 1 (100.6 : ℝ) 0 = 10100 ∧
      (1 : ℤ) * SCORE_WEIGHT_POLE + round ((100.6 : ℝ) * SCORE_WEIGHT_DISTANCE) +
          (0 : ℤ) * SCORE_WEIGHT_TURN = 10101 ∧
      (10100 : ℤ) ≠ 10101 := by
  refine ⟨?_, ?_, by norm_num⟩
  · unfold calculateCostIndex pyInt SCORE_WEIGHT_POLE SCORE_WEIGHT_DISTANCE SCORE_WEIGHT_TURN
    rw [if_pos (by norm_num)]
    have hf : ⌊(100.6 : ℝ) * 1⌋ = 100 := by
      rw [mul_one, Int.floor_eq_iff]; norm_num
    push_cast
    rw [hf]
    norm_num
  · unfold SCORE_WEIGHT_POLE SCORE_WEIGHT_DISTANCE SCORE_WEIGHT_TURN
    have hr : round ((100.6 : ℝ) * 1) = 101 := by
      rw [mul_one, round_eq, Int.floor_eq_iff]; norm_num
    rw [hr]
    norm_num

/-- C4 amended: the composite cost index equals pole count times 10000 plus
the floor (truncation) of the distance in metres plus turn count times 50. -/
theorem C4_amended (p t : ℕ) (d : ℝ) (hd : 0 ≤ d) :
    calculateCostIndex p d t = (p : ℤ) * 10000 + ⌊d⌋ + (t : ℤ) * 50 := by
  unfold calculateCostIndex pyInt SCORE_WEIGHT_POLE SCORE_WEIGHT_DISTANCE SCORE_WEIGHT_TURN
  rw [mul_one, if_pos hd]

/-- C4 amended witness at a concrete fractional distance. -/
theorem C4_amended_witness :
    (0 : ℝ) ≤ 100.6 ∧
      calculateCostIndex 1 (100.6 : ℝ) 0 = (1 : ℤ) * 10000 + ⌊(100.6 : ℝ)⌋ + (0 : ℤ) * 50 :=
  ⟨by norm_num, C4_amended 1 0 (100.6 : ℝ) (by norm_num)⟩

/-! ### C3: HV line preprocessing -/

theorem processHvFeature_none (f : RawFeatureE) : processHvFeature f = none := by
  rcases f with ⟨p, g⟩
  rcases g with _ | g
  · simp [processHvFeature, ite_self]
  · rcases g with coords | pt | _ <;>
      simp [processHvFeature, settingsPhaseMapping, ite_self]

/-- C3: because settings.PHASE_MAPPING is undefined, every feature on the HV
line layer raises inside the per-feature try/except and is skipped, so the
preprocessor output is always empty; in particular the live polyline feature
below is silently discarded instead of becoming an HV obstacle Line. -/
theorem C3_hv_lines_all_dropped :
    (∀ fs : List RawFeatureE, processHvLines fs = []) ∧
      processHvFeature
        ⟨⟨"", none, some "L1", "C", "", none, none, none⟩,
          some (RawGeomE.lineString [(0, 0), (1, 1)])⟩ = none := by
  refine ⟨fun fs => ?_, processHvFeature_none _⟩
  rw [processHvLines, List.filterMap_eq_nil_iff]
  exact fun f _ => processHvFeature_none f

/-! ### C9: transformer capacity parsing -/

theorem toUpper_of_isDigit (c : Char) (h : c.isDigit = true) : c.toUpper = c := by
  simp only [Char.isDigit, Bool.and_eq_true, decide_eq_true_eq] at h
  obtain ⟨h1, h2⟩ := h
  have h1' : (48 : ℕ) ≤ c.val.toNat := h1
  have h2' : c.val.toNat ≤ 57 := h2
  unfold Char.toUpper
  rw [if_neg]
  simp only [Char.toNat, not_and, not_le]
  intro h97
  omega

theorem scan_nil (fuel : ℕ) : scanAxB fuel [] = 0 := by
  cases fuel <;> rfl

theorem span_digit_prefix (d rest : List Char) (hd : ∀ c ∈ d, c.isDigit = true)
    (hr : ∀ c, rest.head? = some c → c.isDigit = false) :
    (d ++ rest).span Char.isDigit = (d, rest) := by
  rw [List.span_eq_take_drop]
  induction d with
  | nil =>
    simp only [List.nil_append]
    cases rest with
    | nil => simp
    | cons c t =>
      have hc := hr c rfl
      simp [List.takeWhile_cons, List.dropWhile_cons, hc]
  | cons a d ih =>
    have ha : Char.isDigit a = true := hd a (List.mem_cons_self a d)
    have ih' := ih fun c hc => hd c (List.mem_cons_of_mem a hc)
    have e1 := congrArg Prod.fst ih'
    have e2 := congrArg Prod.snd ih'
    simp only at e1 e2
    simp only [List.cons_append, List.takeWhile_cons_of_pos ha,
      List.dropWhile_cons_of_pos ha, e1, e2]

theorem tryMatch_none_of_head (c : Char) (cs : List Char) (h : c.isDigit = false) :
    tryMatchAxB (c :: cs) = none := by
  have hs : (c :: cs).span Char.isDigit = ([], c :: cs) := by
    have := span_digit_prefix [] (c :: cs) (by simp) (by intro x hx; cases hx; exact h)
    simpa using this
  unfold tryMatchAxB
  rw [hs]

theorem tryMatch_token (d1 d2 rest : List Char) (h1 : d1 ≠ []) (h2 : d2 ≠ [])
    (hd1 : ∀ c ∈ d1, c.isDigit = true) (hd2 : ∀ c ∈ d2, c.isDigit = true)
    (hr : ∀ c, rest.head? = some c → c.isDigit = false) :
    tryMatchAxB (d1 ++ 'X' :: (d2 ++ rest)) = some (natOfDigits d1, natOfDigits d2, rest) := by
  obtain ⟨a, d1', rfl⟩ := List.exists_cons_of_ne_nil h1
  obtain ⟨b, d2', rfl⟩ := List.exists_cons_of_ne_nil h2
  have hs1 : ((a :: d1') ++ 'X' :: ((b :: d2') ++ rest)).span Char.isDigit
      = (a :: d1', 'X' :: ((b :: d2') ++ rest)) := by
    refine span_digit_prefix _ _ hd1 ?_
    intro c hc
    simp only [List.head?_cons, Option.some_inj] at hc
    subst hc
    decide
  have hs2 : ((b :: d2') ++ rest).span Char.isDigit = (b :: d2', rest) :=
    span_digit_prefix _ _ hd2 hr
  unfold tryMatchAxB
  rw [hs1]
  dsimp only
  split
  · rename_i rest2 heq
    injection heq with h1 h2
    subst h2
    rw [hs2]
  · rename_i hne
    exact (hne _ rfl).elim

theorem span_length {α : Type} (p : α → Bool) (l d r : List α) (h : l.span p = (d, r)) :
    d.length + r.length = l.length := by
  rw [List.span_eq_take_drop] at h
  have e1 := congrArg Prod.fst h
  have e2 := congrArg Prod.snd h
  simp only at e1 e2
  rw [← e1, ← e2, ← List.length_append, List.takeWhile_append_dropWhile]

theorem tryMatch_rest_length (s : List Char) (a b : ℕ) (rest : List Char)
    (h : tryMatchAxB s = some (a, b, rest)) : rest.length < s.length := by
  unfold tryMatchAxB at h
  split at h
  · exact absurd h (by simp)
  · split at h
    · split at h
      · exact absurd h (by simp)
      · rename_i p1 d1 d1ne r1x tail1 hspan p2 d2 r3 d2ne hspan2
        simp only [Option.some_inj, Prod.mk.injEq] at h
        obtain ⟨-, -, hrest⟩ := h
        subst hrest
        have l1 := span_length Char.isDigit s d1 ('X' :: tail1) hspan
        have l2 := span_length Char.isDigit tail1 d2 r3 hspan2
        have hd1 : 0 < d1.length := by
          cases d1 with
          | nil => exact (d1ne rfl).elim
          | cons x xs => simp
        have hd2 : 0 < d2.length := by
          cases d2 with
          | nil => exact (d2ne rfl).elim
          | cons x xs => simp
        simp only [List.length_cons] at l1
        omega
    · exact absurd h (by simp)

theorem scan_fuel_eq : ∀ (n : ℕ) (s : List Char), s.length ≤ n →
    ∀ f1 f2, s.length ≤ f1 → s.length ≤ f2 → scanAxB f1 s = scanAxB f2 s := by
  intro n
  induction n with
  | zero =>
    intro s hs f1 f2 _ _
    have hnil : s = [] := List.eq_nil_of_length_eq_zero (Nat.le_zero.mp hs)
    subst hnil
    rw [scan_nil, scan_nil]
  | succ n ih =>
    intro s hs f1 f2 h1 h2
    cases s with
    | nil => rw [scan_nil, scan_nil]
    | cons c cs =>
      cases f1 with
      | zero => simp at h1
      | succ f1' =>
        cases f2 with
        | zero => simp at h2
        | succ f2' =>
          simp only [scanAxB]
          rcases htm : tryMatchAxB (c :: cs) with _ | ⟨a, b, rest⟩
          · dsimp only
            simp only [List.length_cons] at hs h1 h2
            exact ih cs (by omega) f1' f2' (by omega) (by omega)
          · dsimp only
            have hlt := tryMatch_rest_length _ _ _ _ htm
            simp only [List.length_cons] at hs h1 h2 hlt
            rw [ih rest (by omega) f1' f2' (by omega) (by omega)]

theorem map_toUpper_id (l : List Char) (h : ∀ c ∈ l, c.toUpper = c) :
    l.map Char.toUpper = l := by
  induction l with
  | nil => rfl
  | cons c cs ih =>
    rw [List.map_cons, h c (List.mem_cons_self c cs),
      ih fun x hx => h x (List.mem_cons_of_mem c hx)]

theorem join_toUpper (sep : Char) (hsepu : sep.toUpper = sep) :
    ∀ toks : List (List Char × List Char),
      (∀ t ∈ toks, (∀ c ∈ t.1, c.isDigit = true) ∧ (∀ c ∈ t.2, c.isDigit = true)) →
      (joinTokens toks sep).map Char.toUpper = joinTokens toks sep := by
  intro toks
  induction toks with
  | nil => intro _; rfl
  | cons t ts ih =>
    intro hyp
    obtain ⟨hd1, hd2⟩ := hyp t (List.mem_cons_self t ts)
    have e1 : t.1.map Char.toUpper = t.1 :=
      map_toUpper_id t.1 fun c hc => toUpper_of_isDigit c (hd1 c hc)
    have e2 : t.2.map Char.toUpper = t.2 :=
      map_toUpper_id t.2 fun c hc => toUpper_of_isDigit c (hd2 c hc)
    have eX : Char.toUpper 'X' = 'X' := by decide
    cases ts with
    | nil => simp [joinTokens, e1, e2, eX]
    | cons t2 ts2 =>
      have ih' := ih fun x hx => hyp x (List.mem_cons_of_mem t hx)
      simp [joinTokens, e1, e2, eX, hsepu, ih']

theorem scan_match (fuel : ℕ) (c : Char) (cs : List Char) (a b : ℕ) (rest : List Char)
    (h : tryMatchAxB (c :: cs) = some (a, b, rest)) :
    scanAxB (fuel + 1) (c :: cs) = (a : ℚ) * (b : ℚ) + scanAxB fuel rest := by
  simp only [scanAxB, h]

theorem scan_skip (fuel : ℕ) (c : Char) (cs : List Char) (h : c.isDigit = false) :
    scanAxB (fuel + 1) (c :: cs) = scanAxB fuel cs := by
  simp only [scanAxB, tryMatch_none_of_head c cs h]

theorem scan_join (sep : Char) (hsep : sep.isDigit = false) :
    ∀ toks : List (List Char × List Char),
      (∀ t ∈ toks, t.1 ≠ [] ∧ t.2 ≠ [] ∧ (∀ c ∈ t.1, c.isDigit = true) ∧
        (∀ c ∈ t.2, c.isDigit = true)) →
      ∀ fuel, (joinTokens toks sep).length ≤ fuel →
        scanAxB fuel (joinTokens toks sep) =
          (toks.map fun t => (natOfDigits t.1 : ℚ) * natOfDigits t.2).sum := by
  intro toks
  induction toks with
  | nil =>
    intro _ fuel _
    simp [joinTokens, scan_nil]
  | cons t ts ih =>
    intro hyp fuel hfuel
    obtain ⟨h1, h2, hd1, hd2⟩ := hyp t (List.mem_cons_self t ts)
    obtain ⟨a, d1', hcons⟩ := List.exists_cons_of_ne_nil h1
    cases ts with
    | nil =>
      have htm : tryMatchAxB (a :: (d1' ++ 'X' :: t.2))
          = some (natOfDigits t.1, natOfDigits t.2, []) := by
        have := tryMatch_token t.1 t.2 [] h1 h2 hd1 hd2 (by intro c hc; simp at hc)
        rw [hcons] at this ⊢
        simpa using this
      simp only [joinTokens, hcons, List.cons_append] at hfuel ⊢
      cases fuel with
      | zero => simp at hfuel
      | succ f =>
        rw [scan_match f a _ _ _ _ htm, scan_nil]
        simp
    | cons t2 ts2 =>
      have hr : ∀ c : Char, (sep :: joinTokens (t2 :: ts2) sep).head? = some c →
          c.isDigit = false := by
        intro c hc
        simp only [List.head?_cons, Option.some_inj] at hc
        subst hc
        exact hsep
      have htm : tryMatchAxB (a :: (d1' ++ 'X' :: (t.2 ++ sep :: joinTokens (t2 :: ts2) sep)))
          = some (natOfDigits t.1, natOfDigits t.2, sep :: joinTokens (t2 :: ts2) sep) := by
        have := tryMatch_token t.1 t.2 (sep :: joinTokens (t2 :: ts2) sep) h1 h2 hd1 hd2 hr
        rw [hcons] at this ⊢
        simpa using this
      simp only [joinTokens, hcons, List.cons_append] at hfuel ⊢
      cases fuel with
      | zero => simp at hfuel
      | succ f =>
        rw [scan_match f a _ _ _ _ htm]
        simp only [List.length_cons, List.length_append] at hfuel
        cases f with
        | zero => omega
        | succ f' =>
          rw [scan_skip f' sep _ hsep]
          have ihr := ih (fun x hx => hyp x (List.mem_cons_of_mem t hx)) f'
            (by omega)
          rw [ihr]
          simp

/-- The parsed capacity of a separator-joined AxB token annotation is the sum
of the token products. -/
theorem parse_join (toks : List (List Char × List Char)) (sep : Char)
    (htoks : ∀ t ∈ toks, t.1 ≠ [] ∧ t.2 ≠ [] ∧ (∀ c ∈ t.1, c.isDigit = true) ∧
      (∀ c ∈ t.2, c.isDigit = true))
    (hsep : sep = '|' ∨ sep = ' ') :
    parseTransformerCapacity (joinTokens toks sep)
      = (toks.map fun t => (natOfDigits t.1 : ℚ) * natOfDigits t.2).sum := by
  have hsepd : sep.isDigit = false := by rcases hsep with rfl | rfl <;> decide
  have hsepu : sep.toUpper = sep := by rcases hsep with rfl | rfl <;> decide
  unfold parseTransformerCapacity
  simp only [join_toUpper sep hsepu toks
    fun t ht => ⟨(htoks t ht).2.2.1, (htoks t ht).2.2.2⟩]
  exact scan_join sep hsepd toks htoks _ le_rfl

/-- C9: the parsed transformer capacity of an annotation made of AxB tokens
joined by a pipe or space separator is the sum of A times B over the tokens;
the worked example 30X1|20X2 parses to 70; and when the annotation parses to
zero the capacity falls back to an explicit truthy kVA field. -/
theorem C9_capacity_parsing (toks : List (List Char × List Char)) (sep : Char)
    (htoks : ∀ t ∈ toks, t.1 ≠ [] ∧ t.2 ≠ [] ∧ (∀ c ∈ t.1, c.isDigit = true) ∧
      (∀ c ∈ t.2, c.isDigit = true))
    (hsep : sep = '|' ∨ sep = ' ') :
    parseTransformerCapacity (joinTokens toks sep)
        = (toks.map fun t => (natOfDigits t.1 : ℚ) * natOfDigits t.2).sum
      ∧ parseTransformerCapacity "30X1|20X2".toList = 70
      ∧ ∀ (annxn : List Char) (k : ℚ) (kva : Option ℚ),
          parseTransformerCapacity annxn = 0 → k ≠ 0 →
          transformerCapacity annxn (some k) kva = k := by
  refine ⟨parse_join toks sep htoks hsep, ?_, ?_⟩
  · have h := parse_join [(['3', '0'], ['1']), (['2', '0'], ['2'])] '|' (by decide) (Or.inl rfl)
    have hl : "30X1|20X2".toList
        = joinTokens [(['3', '0'], ['1']), (['2', '0'], ['2'])] '|' := rfl
    rw [hl, h]
    have c1 : ('3' : Char).toNat = 51 := rfl
    have c2 : ('0' : Char).toNat = 48 := rfl
    have c3 : ('1' : Char).toNat = 49 := rfl
    have c4 : ('2' : Char).toNat = 50 := rfl
    simp only [natOfDigits, List.foldl, c1, c2, c3, c4, List.map, List.sum_cons,
      List.sum_nil]
    norm_num
  · intro annxn k kva h0 hk
    simp [transformerCapacity, h0, pyOrQ, truthyQ, hk]

/-- C9 witness: the theorem applied to the two tokens of the worked example
with the pipe separator. -/
theorem C9_capacity_parsing_witness :
    (parseTransformerCapacity (joinTokens [(['3', '0'], ['1']), (['2', '0'], ['2'])] '|')
        = (([(['3', '0'], ['1']), (['2', '0'], ['2'])] : List (List Char × List Char)).map
            fun t => (natOfDigits t.1 : ℚ) * natOfDigits t.2).sum)
      ∧ parseTransformerCapacity "30X1|20X2".toList = 70
      ∧ ∀ (annxn : List Char) (k : ℚ) (kva : Option ℚ),
          parseTransformerCapacity annxn = 0 → k ≠ 0 →
          transformerCapacity annxn (some k) kva = k :=
  C9_capacity_parsing [(['3', '0'], ['1']), (['2', '0'], ['2'])] '|' (by decide) (Or.inl rfl)

/-! ### C7: obstacle validator -/

theorem polyCrosses_intersects (p q : List Q2) (h : polyCrosses p q = true) :
    polyIntersects p q = true := by
  simp only [polyCrosses, polyInteriorContact, List.any_eq_true] at h
  obtain ⟨pt, hpt, -⟩ := h
  simp only [polyIntersects, List.isEmpty_iff, decide_eq_true_eq]
  intro hnil
  rw [hnil] at hpt
  exact absurd hpt (List.not_mem_nil pt)

theorem lineBlocks_eq_false (H : ℚ) (path : List Q2) (l : VLine) :
    lineBlocks H path l = false ↔
      (l.is_obstacle = true →
        (polyCrosses path l.coords = true ∨
          (polyIntersects path l.coords = true ∧ polyTouches path l.coords = false)) →
        (isEndpointIntersection (polyContacts path l.coords) path = true ∨
          1.5 ≤ |H - estimateHeight l.line_type l.text_gis_annxn|)) := by
  have hci := polyCrosses_intersects path l.coords
  unfold lineBlocks
  split_ifs with h1 h2 h3 h4
  all_goals simp_all

/-- C7 amended: a path (with at least two coordinates) is reported valid iff
for every retained obstacle line whose intersection with the path is a real
crossing (shapely crosses, or intersects without touching), the intersection
is within the 2.5 m per-axis endpoint tolerance of the path start or end, or
the estimated height difference is at least 1.5 m. -/
theorem C7_amended (lines : List VLine) (path : List Q2) (t : String) :
    validatePath lines path t = true ↔
      (path.length < 2 ∨
        ∀ l ∈ lines, 2 ≤ l.coords.length → l.is_obstacle = true →
          (polyCrosses path l.coords = true ∨
            (polyIntersects path l.coords = true ∧ polyTouches path l.coords = false)) →
          (isEndpointIntersection (polyContacts path l.coords) path = true ∨
            1.5 ≤ |(if t = "HV" then (10.5 : ℚ) else 8.5) -
              estimateHeight l.line_type l.text_gis_annxn|)) := by
  unfold validatePath
  by_cases hlen : path.length < 2
  · simp [hlen]
  · rw [if_neg hlen]
    have hiff : ∀ l, l ∈ validatorLines lines ↔ l ∈ lines ∧ 2 ≤ l.coords.length := by
      intro l
      simp [validatorLines, List.mem_filter]
    constructor
    · intro h
      right
      intro l hl hlen2
      have hmem : l ∈ validatorLines lines := (hiff l).mpr ⟨hl, hlen2⟩
      have hfalse : lineBlocks (if t = "HV" then (10.5 : ℚ) else 8.5) path l = false := by
        rw [List.isEmpty_iff, List.filter_eq_nil_iff] at h
        simpa using h l hmem
      exact (lineBlocks_eq_false _ path l).mp hfalse
    · intro h
      rcases h with h | h
      · exact absurd h hlen
      · rw [List.isEmpty_iff, List.filter_eq_nil_iff]
        intro l hl
        obtain ⟨hmem, hlen2⟩ := (hiff l).mp hl
        simpa using (lineBlocks_eq_false _ path l).mpr (h l hmem hlen2)

/-- C7 counterexample: an LV obstacle line properly crossing the path 2 m
from its start point, at the same installed height.  The code reports the
path valid (the crossing falls inside the 2.5 m per-axis endpoint tolerance
box) while the claim, which exempts only intersections exactly at the start
or end point, declares it invalid. -/
theorem C7_counterexample :
    validatePath [⟨"L1", [(3, -4), (3, 6)], "LV", true, false, ""⟩]
        [(1, 2), (101, 2)] "LV" = true
      ∧ ¬ specPathValid [⟨"L1", [(3, -4), (3, 6)], "LV", true, false, ""⟩]
          [(1, 2), (101, 2)] "LV" := by
  have hc : polyContacts [((1 : ℚ), (2 : ℚ)), (101, 2)] [((3 : ℚ), (-4 : ℚ)), (3, 6)]
      = [(3, 2)] := by
    norm_num [polyContacts, segsOf, segContacts, qcross, List.flatMap, List.dedup]
  have he : estimateHeight "LV" "" = 8.5 := rfl
  have hInt : polyIntersects [((1 : ℚ), (2 : ℚ)), (101, 2)] [((3 : ℚ), (-4 : ℚ)), (3, 6)]
      = true := by
    unfold polyIntersects
    rw [hc]
    decide
  have hCross : polyCrosses [((1 : ℚ), (2 : ℚ)), (101, 2)] [((3 : ℚ), (-4 : ℚ)), (3, 6)]
      = true := by
    unfold polyCrosses polyInteriorContact
    rw [hc]
    decide
  have hEnd : isEndpointIntersection [((3 : ℚ), (2 : ℚ))] [((1 : ℚ), (2 : ℚ)), (101, 2)]
      = true := by
    norm_num [isEndpointIntersection, isNearQ]
  have hb : lineBlocks (8.5 : ℚ) [((1 : ℚ), (2 : ℚ)), (101, 2)]
      ⟨"L1", [(3, -4), (3, 6)], "LV", true, false, ""⟩ = false := by
    simp [lineBlocks, hInt, hCross, hc, hEnd]
  constructor
  · simp [validatePath, validatorLines, List.filter, hb]
  · intro h
    have h1 := h _ (List.mem_singleton.mpr rfl) (3, 2)
      (by rw [hc]; exact List.mem_singleton.mpr rfl)
    rcases h1 with h1 | h1 | h1 | h1
    · simp at h1
    · simp at h1
    · simp at h1
    · rw [he, if_neg (by decide : ¬ ("LV" = "HV"))] at h1
      norm_num at h1

/-! ### C1: pole count formula versus actual placement -/

theorem buildPoles_length (path : List Pt) :
    ∀ (ps : List (ℝ × Bool)) (i : ℕ) (prev : Pt) (cum : ℝ),
      (buildPoles path ps i prev cum).length = ps.length := by
  intro ps
  induction ps with
  | nil => intro i prev cum; rfl
  | cons x xs ih =>
    intro i prev cum
    obtain ⟨pos, isj⟩ := x
    simp only [buildPoles, List.length_cons, ih]

theorem polePositions_30 : calculatePolePositions 30 = [0] := by
  norm_num [calculatePolePositions, MIN_DISTANCE_TO_EXISTING_POLE, POLE_INTERVAL]

theorem polePositions_70 : calculatePolePositions 70 = [0, 40] := by
  have hf : ⌊(11 : ℝ) / 8⌋₊ = 1 := by
    rw [Nat.floor_eq_iff] <;> norm_num
  norm_num [calculatePolePositions, MIN_DISTANCE_TO_EXISTING_POLE, POLE_INTERVAL, hf, posLoop]

theorem polePositions_120 : calculatePolePositions 120 = [0, 40, 80] := by
  have hf : ⌊(21 : ℝ) / 8⌋₊ = 2 := by
    rw [Nat.floor_eq_iff] <;> norm_num
  norm_num [calculatePolePositions, MIN_DISTANCE_TO_EXISTING_POLE, POLE_INTERVAL, hf, posLoop]

theorem polePositions_400 :
    calculatePolePositions 400 = [0, 40, 80, 120, 160, 200, 240, 280, 320, 360] := by
  have hf : ⌊(77 : ℝ) / 8⌋₊ = 9 := by
    rw [Nat.floor_eq_iff] <;> norm_num
  norm_num [calculatePolePositions, MIN_DISTANCE_TO_EXISTING_POLE, POLE_INTERVAL, hf, posLoop]

theorem poleCount_30 : calculatePoleCount 30 = 1 := by
  norm_num [calculatePoleCount, FIRST_POLE_MAX_DISTANCE]

theorem poleCount_70 : calculatePoleCount 70 = 2 := by
  have hc : ⌈(1 : ℝ)⌉₊ = 1 := by norm_num
  norm_num [calculatePoleCount, FIRST_POLE_MAX_DISTANCE, POLE_INTERVAL, hc]

theorem poleCount_120 : calculatePoleCount 120 = 4 := by
  have hc : ⌈(9 : ℝ) / 4⌉₊ = 3 := by
    rw [Nat.ceil_eq_iff] <;> norm_num
  norm_num [calculatePoleCount, FIRST_POLE_MAX_DISTANCE, POLE_INTERVAL, hc]

theorem poleCount_400 : calculatePoleCount 400 = 11 := by
  have hc : ⌈(37 : ℝ) / 4⌉₊ = 10 := by
    rw [Nat.ceil_eq_iff] <;> norm_num
  norm_num [calculatePoleCount, FIRST_POLE_MAX_DISTANCE, POLE_INTERVAL, hc]

theorem polyLength_straight120 : polyLength [((2 : ℝ), (5 : ℝ)), (122, 5)] = 120 := by
  have h : ((122 : ℝ) - 2) ^ 2 + (5 - 5) ^ 2 = 120 ^ 2 := by norm_num
  simp only [polyLength, pdist, calculate_distance, h]
  rw [Real.sqrt_sq (by norm_num : (0 : ℝ) ≤ 120)]
  norm_num

theorem allocPositions_straight120 :
    allocPositions [((2 : ℝ), (5 : ℝ)), (122, 5)] = [(0, false), (40, false), (80, false)] := by
  unfold allocPositions
  rw [polyLength_straight120]
  dsimp only
  rw [polePositions_120, show findJunctions [((2 : ℝ), (5 : ℝ)), (122, 5)] = [] from rfl,
    List.filter_nil]
  norm_num [mergePositions, List.insertionSort, List.orderedInsert, mergeLoop, posOrder]

/-- C1: the helper _calculate_pole_count does implement the PRD formula
(30, 70, 120, 400 m give 1, 2, 4, 11 poles), but the allocator places poles
by _calculate_pole_positions, which on the 120 m worked example yields only
the three positions 0, 40, 80 (no pole at the 105 m effective length, since
the final 40 m span does not strictly exceed the interval) and on 400 m
yields ten positions; a full allocation of a straight 120 m path therefore
contains 3 new poles where the claim requires 4. -/
theorem C1_pole_formula_vs_placement :
    calculatePoleCount 30 = 1 ∧ calculatePoleCount 70 = 2 ∧
      calculatePoleCount 120 = 4 ∧ calculatePoleCount 400 = 11 ∧
      calculatePolePositions 30 = [0] ∧ calculatePolePositions 70 = [0, 40] ∧
      calculatePolePositions 120 = [0, 40, 80] ∧
      calculatePolePositions 400 = [0, 40, 80, 120, 160, 200, 240, 280, 320, 360] ∧
      (allocate ⟨[(2, 5), (122, 5)], 120, true, false⟩).new_poles.length = 3 := by
  refine ⟨poleCount_30, poleCount_70, poleCount_120, poleCount_400, polePositions_30,
    polePositions_70, polePositions_120, polePositions_400, ?_⟩
  have h2 : ¬ ([((2 : ℝ), (5 : ℝ)), (122, 5)].length < 2) := by simp
  simp only [allocate, Bool.not_true, if_neg, if_false]
  rw [if_neg (by simp), if_neg h2, if_neg (by simp)]
  simp only [buildPoles_length, allocPositions_straight120, List.length_cons,
    List.length_nil]

/-! ### C8: consumer-end pole invariants -/

theorem pdist_eval (x1 y1 x2 y2 d : ℝ) (h : (x2 - x1) ^ 2 + (y2 - y1) ^ 2 = d ^ 2)
    (hd : 0 ≤ d) : pdist (x1, y1) (x2, y2) = d := by
  simp only [pdist, calculate_distance]
  rw [h, Real.sqrt_sq hd]

theorem pdist_nonneg (a b : Pt) : 0 ≤ pdist a b := Real.sqrt_nonneg _

theorem mergeLoop_head_stable :
    ∀ (xs : List (ℝ × Bool)) (a : ℝ × Bool) (accTail : List (ℝ × Bool)),
      (accTail ≠ [] ∨ a.2 = true) →
      (mergeLoop (a :: accTail) xs).head? = (a :: accTail).getLast? := by
  intro xs
  induction xs with
  | nil =>
    intro a accTail _
    simp only [mergeLoop, List.head?_reverse]
  | cons x xs ih =>
    intro a accTail hcond
    obtain ⟨pos, isj⟩ := x
    obtain ⟨lp, lj⟩ := a
    simp only [mergeLoop]
    by_cases h1 : |pos - lp| < 10
    · rw [if_pos h1]
      by_cases h2 : isj ∧ ¬ lj
      · rw [if_pos h2]
        cases accTail with
        | nil =>
          rcases hcond with hne | hj
          · exact absurd rfl hne
          · exact absurd hj (by simpa using h2.2)
        | cons t ts =>
          rw [ih (pos, true) (t :: ts) (Or.inl (by simp))]
          simp [List.getLast?_cons_cons]
      · rw [if_neg h2]
        exact ih (lp, lj) accTail hcond
    · rw [if_neg h1]
      rw [ih (pos, isj) ((lp, lj) :: accTail) (Or.inl (by simp))]
      simp [List.getLast?_cons_cons]

theorem mergeLoop_single_head :
    ∀ (xs : List (ℝ × Bool)) (x : ℝ × Bool),
      ∃ y, (mergeLoop [x] xs).head? = some y ∧
        (y = x ∨ (|y.1 - x.1| < 10 ∧ y.2 = true ∧ y ∈ xs)) := by
  intro xs
  induction xs with
  | nil =>
    intro x
    exact ⟨x, by simp [mergeLoop], Or.inl rfl⟩
  | cons z xs ih =>
    intro x
    obtain ⟨pos, isj⟩ := z
    obtain ⟨lp, lj⟩ := x
    simp only [mergeLoop]
    by_cases h1 : |pos - lp| < 10
    · rw [if_pos h1]
      by_cases h2 : isj ∧ ¬ lj
      · rw [if_pos h2]
        refine ⟨(pos, true), ?_, Or.inr ⟨by simpa using h1, rfl, ?_⟩⟩
        · rw [mergeLoop_head_stable xs (pos, true) [] (Or.inr rfl)]
          rfl
        · obtain ⟨hj, -⟩ := h2
          subst hj
          exact List.mem_cons_self _ _
      · rw [if_neg h2]
        obtain ⟨y, hy, hrel⟩ := ih (lp, lj)
        exact ⟨y, hy, by
          rcases hrel with h | ⟨ha, hb, hm⟩
          · exact Or.inl h
          · exact Or.inr ⟨ha, hb, List.mem_cons_of_mem _ hm⟩⟩
    · rw [if_neg h1]
      refine ⟨(lp, lj), ?_, Or.inl rfl⟩
      rw [mergeLoop_head_stable xs (pos, isj) [(lp, lj)] (Or.inl (by simp))]
      rfl

theorem posLoop_mem_lower :
    ∀ (fuel : ℕ) (current effective x : ℝ), x ∈ posLoop fuel current effective →
      current ≤ x := by
  intro fuel
  induction fuel with
  | zero => intro current effective x hx; simp [posLoop] at hx
  | succ n ih =>
    intro current effective x hx
    simp only [posLoop] at hx
    by_cases h : current ≤ effective
    · rw [if_pos h] at hx
      rcases List.mem_cons.mp hx with rfl | hx
      · exact le_refl x
      · have := ih (current + POLE_INTERVAL) effective x hx
        have hpi : (0 : ℝ) < POLE_INTERVAL := by norm_num [POLE_INTERVAL]
        linarith
    · rw [if_neg h] at hx
      exact absurd hx (List.not_mem_nil x)

theorem polePositions_head (L : ℝ) : (calculatePolePositions L).head? = some 0 := by
  unfold calculatePolePositions
  dsimp only
  split_ifs <;> simp [List.cons_append]

theorem polePositions_nonneg (L x : ℝ) (hx : x ∈ calculatePolePositions L) : 0 ≤ x := by
  unfold calculatePolePositions at hx
  dsimp only at hx
  split_ifs at hx with h1 h2 h3 h4
  · have hx0 : x = 0 := by simpa using hx
    rw [hx0]
  · have hx0 : x = 0 := by simpa using hx
    rw [hx0]
  · rcases List.mem_append.mp hx with hx | hx
    · rcases List.mem_cons.mp hx with hx0 | hx
      · rw [hx0]
      · have := posLoop_mem_lower _ _ _ _ hx
        norm_num [POLE_INTERVAL] at this
        linarith
    · have hxe : x = L - MIN_DISTANCE_TO_EXISTING_POLE := by simpa using hx
      rw [hxe]
      norm_num [POLE_INTERVAL, MIN_DISTANCE_TO_EXISTING_POLE] at h2 ⊢
      linarith
  · rcases List.mem_cons.mp hx with hx0 | hx
    · rw [hx0]
    · have := posLoop_mem_lower _ _ _ _ hx
      norm_num [POLE_INTERVAL] at this
      linarith
  · rcases List.mem_cons.mp hx with hx0 | hx
    · rw [hx0]
    · have := posLoop_mem_lower _ _ _ _ hx
      norm_num [POLE_INTERVAL] at this
      linarith

theorem findJunctionsAux_nonneg :
    ∀ (rest : List Pt) (p1 : Pt) (cum : ℝ), 0 ≤ cum →
      ∀ x ∈ findJunctionsAux p1 rest cum, 0 ≤ x.1 := by
  intro rest
  induction rest with
  | nil => intro p1 cum _ x hx; simp [findJunctionsAux] at hx
  | cons p2 rest ih =>
    intro p1 cum hcum x hx
    cases rest with
    | nil => simp [findJunctionsAux] at hx
    | cons p3 rest2 =>
      simp only [findJunctionsAux] at hx
      have hcum2 : 0 ≤ cum + pdist p1 p2 := by
        have := pdist_nonneg p1 p2
        linarith
      by_cases ha : calculate_angle p1 p2 p3 < 150
      · rw [if_pos ha] at hx
        rcases List.mem_cons.mp hx with rfl | hx
        · exact hcum2
        · exact ih p2 (cum + pdist p1 p2) hcum2 x hx
      · rw [if_neg ha] at hx
        exact ih p2 (cum + pdist p1 p2) hcum2 x hx

theorem findJunctions_nonneg (path : List Pt) :
    ∀ x ∈ findJunctions path, 0 ≤ x.1 := by
  intro x hx
  unfold findJunctions at hx
  match path, hx with
  | p1 :: p2 :: p3 :: rest, hx =>
    exact findJunctionsAux_nonneg (p2 :: p3 :: rest) p1 0 le_rfl x hx

theorem mergePositions_head (regular : List ℝ) (junctions : List (ℝ × Bool))
    (hhead : regular.head? = some 0) (hreg : ∀ x ∈ regular, 0 ≤ x)
    (hj : ∀ x ∈ junctions, 0 ≤ x.1) :
    ∃ p0 b, (mergePositions regular junctions).head? = some (p0, b) ∧
      0 ≤ p0 ∧ p0 < 10 := by
  unfold mergePositions
  dsimp only
  set all := (regular.map fun p => (p, false)) ++ junctions with hall
  have hmem : ((0 : ℝ), false) ∈ all := by
    apply List.mem_append_left
    apply List.mem_map_of_mem
    cases regular with
    | nil => simp at hhead
    | cons r rs =>
      simp only [List.head?_cons, Option.some_inj] at hhead
      rw [← hhead]
      exact List.mem_cons_self r rs
  have hnonneg : ∀ y ∈ all, 0 ≤ y.1 := by
    intro y hy
    rcases List.mem_append.mp hy with hy | hy
    · obtain ⟨p, hp, rfl⟩ := List.mem_map.mp hy
      exact hreg p hp
    · exact hj y hy
  have hmem' : ((0 : ℝ), false) ∈ List.insertionSort posOrder all :=
    (List.mem_insertionSort posOrder).mpr hmem
  obtain ⟨s0, rest, hsr⟩ := List.exists_cons_of_ne_nil (List.ne_nil_of_mem hmem')
  have hsorted : (List.insertionSort posOrder all).Sorted posOrder :=
    List.sorted_insertionSort posOrder all
  have hs0 : s0.1 = 0 := by
    have h1 : 0 ≤ s0.1 := by
      apply hnonneg
      rw [← List.mem_insertionSort (r := posOrder)]
      rw [hsr]
      exact List.mem_cons_self s0 rest
    have h2 : s0.1 ≤ 0 := by
      rw [hsr] at hmem' hsorted
      rcases List.mem_cons.mp hmem' with he | hm
      · rw [← he]
      · exact (List.sorted_cons.mp hsorted).1 _ hm
    linarith
  rw [hsr]
  rw [show mergeLoop [] (s0 :: rest) = mergeLoop [s0] rest from by simp [mergeLoop]]
  obtain ⟨y, hy, hrel⟩ := mergeLoop_single_head rest s0
  refine ⟨y.1, y.2, by simpa using hy, ?_, ?_⟩
  · rcases hrel with rfl | ⟨-, -, hm⟩
    · rw [hs0]
    · apply hnonneg
      rw [← List.mem_insertionSort (r := posOrder), hsr]
      exact List.mem_cons_of_mem s0 hm
  · rcases hrel with rfl | ⟨ha, -, -⟩
    · rw [hs0]; norm_num
    · rw [hs0] at ha
      rw [sub_zero] at ha
      calc y.1 ≤ |y.1| := le_abs_self y.1
        _ < 10 := ha

theorem allocPositions_head (path : List Pt) :
    ∃ p0 b, (allocPositions path).head? = some (p0, b) ∧ 0 ≤ p0 ∧ p0 < 10 := by
  unfold allocPositions
  dsimp only
  apply mergePositions_head
  · exact polePositions_head _
  · exact fun x hx => polePositions_nonneg _ x hx
  · intro x hx
    exact findJunctions_nonneg path x (List.mem_of_mem_filter hx)

/-- C8 amended: for every reachable path with at least two coordinates, a
Fast-Track allocation contains exactly one pole at the consumer coordinate
with cumulative distance 0, and a non-Fast-Track allocation is nonempty with
its first pole at a merged position within the 10 m merge threshold of the
consumer end (position 0 itself unless a junction within 10 m replaced it). -/
theorem C8_amended (pr : PathResultE) (hreach : pr.is_reachable = true)
    (hlen : 2 ≤ pr.path_coords.length) :
    (pr.is_fast_track = true →
      (allocate pr).new_poles = [⟨1, pr.path_coords.headD (0, 0), 0, false⟩]) ∧
    (pr.is_fast_track = false →
      (allocate pr).new_poles ≠ [] ∧
      ∃ p0 b, (allocPositions pr.path_coords).head? = some (p0, b) ∧ 0 ≤ p0 ∧ p0 < 10 ∧
        (allocate pr).new_poles.head? = some
          ⟨1, interpolate pr.path_coords p0,
            pdist (pr.path_coords.headD (0, 0)) (interpolate pr.path_coords p0), b⟩) := by
  have h2 : ¬ (pr.path_coords.length < 2) := by omega
  constructor
  · intro hft
    simp only [allocate, hreach, Bool.not_true]
    rw [if_neg (by simp), if_neg h2, if_pos (by rw [hft])]
  · intro hft
    simp only [allocate, hreach, Bool.not_true]
    rw [if_neg (by simp), if_neg h2, if_neg (by rw [hft]; exact Bool.false_ne_true)]
    obtain ⟨p0, b, hhead, hge, hlt⟩ := allocPositions_head pr.path_coords
    obtain ⟨tail, htail⟩ : ∃ tail, allocPositions pr.path_coords = (p0, b) :: tail := by
      cases hap : allocPositions pr.path_coords with
      | nil => rw [hap] at hhead; simp at hhead
      | cons z zs =>
        rw [hap] at hhead
        simp only [List.head?_cons, Option.some_inj] at hhead
        exact ⟨zs, by rw [← hhead]⟩
    rw [htail]
    simp only [buildPoles, ne_eq, List.cons_ne_nil, not_false_iff, true_and,
      List.head?_cons, Option.some_inj]
    refine ⟨p0, b, rfl, hge, hlt, ?_⟩
    norm_num

/-- C8 witness: the amended theorem applied to the straight 120 m path. -/
theorem C8_amended_witness :
    ((false : Bool) = true →
      (allocate ⟨[((2 : ℝ), (5 : ℝ)), (122, 5)], 120, true, false⟩).new_poles
        = [⟨1, ((2 : ℝ), (5 : ℝ)), 0, false⟩]) ∧
    ((false : Bool) = false →
      (allocate ⟨[((2 : ℝ), (5 : ℝ)), (122, 5)], 120, true, false⟩).new_poles ≠ [] ∧
      ∃ p0 b, (allocPositions [((2 : ℝ), (5 : ℝ)), (122, 5)]).head? = some (p0, b) ∧
        0 ≤ p0 ∧ p0 < 10 ∧
        (allocate ⟨[((2 : ℝ), (5 : ℝ)), (122, 5)], 120, true, false⟩).new_poles.head?
          = some ⟨1, interpolate [((2 : ℝ), (5 : ℝ)), (122, 5)] p0,
              pdist ((2 : ℝ), (5 : ℝ)) (interpolate [((2 : ℝ), (5 : ℝ)), (122, 5)] p0), b⟩) :=
  C8_amended ⟨[(2, 5), (122, 5)], 120, true, false⟩ rfl (by norm_num)

theorem deg_arccos_lt_150 (c : ℝ) (hc1 : -1 ≤ c) (hc2 : c ≤ 1)
    (hlt : -(Real.sqrt 3 / 2) < c) : (180 / Real.pi) * Real.arccos c < 150 := by
  have hs3a : (0 : ℝ) ≤ Real.sqrt 3 := Real.sqrt_nonneg 3
  have hs3b : Real.sqrt 3 ≤ 2 := by
    nlinarith [Real.sq_sqrt (by norm_num : (3 : ℝ) ≥ 0)]
  have hmem1 : -(Real.sqrt 3 / 2) ∈ Set.Icc (-1 : ℝ) 1 :=
    Set.mem_Icc.mpr ⟨by linarith, by linarith⟩
  have hmem2 : c ∈ Set.Icc (-1 : ℝ) 1 := Set.mem_Icc.mpr ⟨hc1, hc2⟩
  have hcos : Real.cos (5 * Real.pi / 6) = -(Real.sqrt 3 / 2) := by
    have h : (5 : ℝ) * Real.pi / 6 = Real.pi - Real.pi / 6 := by ring
    rw [h, Real.cos_pi_sub, Real.cos_pi_div_six]
  have harc : Real.arccos (-(Real.sqrt 3 / 2)) = 5 * Real.pi / 6 := by
    rw [← hcos]
    apply Real.arccos_cos
    · positivity
    · nlinarith [Real.pi_pos]
  have hlt2 : Real.arccos c < 5 * Real.pi / 6 := by
    calc Real.arccos c < Real.arccos (-(Real.sqrt 3 / 2)) :=
          Real.strictAntiOn_arccos hmem1 hmem2 hlt
      _ = 5 * Real.pi / 6 := harc
  have hpos : (0 : ℝ) < 180 / Real.pi := by positivity
  calc (180 / Real.pi) * Real.arccos c
      < (180 / Real.pi) * (5 * Real.pi / 6) := by
        exact mul_lt_mul_of_pos_left hlt2 hpos
    _ = 150 := by
        field_simp
        ring

theorem angle1_lt :
    calculate_angle ((1 : ℝ), (2 : ℝ)) (6, 2) (9, 6) < 150 := by
  unfold calculate_angle
  dsimp only
  have hm1 : Real.sqrt (((1 : ℝ) - 6) ^ 2 + ((2 : ℝ) - 2) ^ 2) = 5 := by
    rw [show ((1 : ℝ) - 6) ^ 2 + ((2 : ℝ) - 2) ^ 2 = 5 ^ 2 by norm_num,
      Real.sqrt_sq (by norm_num : (0 : ℝ) ≤ 5)]
  have hm2 : Real.sqrt (((9 : ℝ) - 6) ^ 2 + ((6 : ℝ) - 2) ^ 2) = 5 := by
    rw [show ((9 : ℝ) - 6) ^ 2 + ((6 : ℝ) - 2) ^ 2 = 5 ^ 2 by norm_num,
      Real.sqrt_sq (by norm_num : (0 : ℝ) ≤ 5)]
  rw [hm1, hm2]
  rw [if_neg (by norm_num)]
  have hc : max (-1 : ℝ) (min 1 (((1 - 6) * (9 - 6) + (2 - 2) * (6 - 2)) / (5 * 5)))
      = -(3 / 5) := by norm_num
  rw [hc]
  apply deg_arccos_lt_150 _ (by norm_num) (by norm_num)
  have h35 : (6 / 5 : ℝ) < Real.sqrt 3 := by
    nlinarith [Real.sq_sqrt (by norm_num : (3 : ℝ) ≥ 0), Real.sqrt_nonneg 3]
  linarith

theorem angle2_not_lt :
    ¬ (calculate_angle ((6 : ℝ), (2 : ℝ)) (9, 6) (15, 14) < 150) := by
  unfold calculate_angle
  dsimp only
  have hm1 : Real.sqrt (((6 : ℝ) - 9) ^ 2 + ((2 : ℝ) - 6) ^ 2) = 5 := by
    rw [show ((6 : ℝ) - 9) ^ 2 + ((2 : ℝ) - 6) ^ 2 = 5 ^ 2 by norm_num,
      Real.sqrt_sq (by norm_num : (0 : ℝ) ≤ 5)]
  have hm2 : Real.sqrt (((15 : ℝ) - 9) ^ 2 + ((14 : ℝ) - 6) ^ 2) = 10 := by
    rw [show ((15 : ℝ) - 9) ^ 2 + ((14 : ℝ) - 6) ^ 2 = 10 ^ 2 by norm_num,
      Real.sqrt_sq (by norm_num : (0 : ℝ) ≤ 10)]
  rw [hm1, hm2]
  rw [if_neg (by norm_num)]
  have hc : max (-1 : ℝ) (min 1 (((6 - 9) * (15 - 9) + (2 - 6) * (14 - 6)) / (5 * 10)))
      = -1 := by norm_num
  rw [hc, Real.arccos_neg_one]
  rw [show (180 / Real.pi) * Real.pi = 180 by
    field_simp]
  norm_num

theorem pdist_12_62 : pdist ((1 : ℝ), (2 : ℝ)) (6, 2) = 5 :=
  pdist_eval 1 2 6 2 5 (by norm_num) (by norm_num)

theorem pdist_62_96 : pdist ((6 : ℝ), (2 : ℝ)) (9, 6) = 5 :=
  pdist_eval 6 2 9 6 5 (by norm_num) (by norm_num)

theorem pdist_96_1514 : pdist ((9 : ℝ), (6 : ℝ)) (15, 14) = 10 :=
  pdist_eval 9 6 15 14 10 (by norm_num) (by norm_num)

theorem polyLength_kinked20 :
    polyLength [((1 : ℝ), (2 : ℝ)), (6, 2), (9, 6), (15, 14)] = 20 := by
  simp only [polyLength, pdist_12_62, pdist_62_96, pdist_96_1514]
  norm_num

theorem findJunctions_kinked20 :
    findJunctions [((1 : ℝ), (2 : ℝ)), (6, 2), (9, 6), (15, 14)] = [(5, true)] := by
  unfold findJunctions findJunctionsAux
  rw [if_pos angle1_lt]
  unfold findJunctionsAux
  rw [if_neg angle2_not_lt]
  simp only [findJunctionsAux, pdist_12_62]
  norm_num

theorem interpolate_kinked20 :
    interpolate [((1 : ℝ), (2 : ℝ)), (6, 2), (9, 6), (15, 14)] 5 = (6, 2) := by
  unfold interpolate
  dsimp only
  rw [pdist_12_62, if_pos (le_refl (5 : ℝ)), if_neg (by norm_num : ¬ (5 : ℝ) = 0)]
  norm_num

theorem allocPositions_kinked20 :
    allocPositions [((1 : ℝ), (2 : ℝ)), (6, 2), (9, 6), (15, 14)] = [(5, true)] := by
  unfold allocPositions
  rw [polyLength_kinked20]
  dsimp only
  rw [findJunctions_kinked20,
    show calculatePolePositions 20 = [0] by
      norm_num [calculatePolePositions, MIN_DISTANCE_TO_EXISTING_POLE, POLE_INTERVAL]]
  rw [show List.filter (fun x => decide (x.1 ≤ 20 - MIN_DISTANCE_TO_EXISTING_POLE))
      [((5 : ℝ), true)] = [((5 : ℝ), true)] by
    norm_num [MIN_DISTANCE_TO_EXISTING_POLE, List.filter]]
  norm_num [mergePositions, List.insertionSort, List.orderedInsert, posOrder, mergeLoop]

/-! ### C6 and C2: target selection -/

theorem stepThreeFlag_pole (buildings : List BuildingE) (consumer : Pt) (t : STarget) :
    (stepThreeFlag buildings consumer t).pole = t.pole := by
  unfold stepThreeFlag
  split_ifs <;> rfl

theorem stepFourAssign_pole (phase_code : String) (lines : List SLine) (t : STarget) :
    (stepFourAssign phase_code lines t).pole = t.pole := by
  unfold stepFourAssign
  split_ifs <;> rfl

theorem selectTargets_mem (poles : List SPole) (lines : List SLine)
    (buildings : List BuildingE) (consumer : Pt) (phase_code : String) (p : SPole) :
    (∃ t ∈ selectTargets poles lines buildings consumer phase_code, t.pole = p) ↔
      p ∈ phaseMatching poles lines phase_code ∧
        pdist consumer p.coord ≤ MAX_DISTANCE_LIMIT := by
  unfold selectTargets
  dsimp only
  constructor
  · rintro ⟨t, ht, rfl⟩
    rw [List.mem_insertionSort] at ht
    obtain ⟨t1, ht1, rfl⟩ := List.mem_map.mp ht
    obtain ⟨t0, ht0, rfl⟩ := List.mem_map.mp ht1
    obtain ⟨q, hq, hg⟩ := List.mem_filterMap.mp ht0
    rw [stepFourAssign_pole, stepThreeFlag_pole]
    by_cases hd : MAX_DISTANCE_LIMIT < pdist consumer q.coord
    · rw [if_pos hd] at hg
      exact absurd hg (by simp)
    · rw [if_neg hd] at hg
      have ht0q : t0 = ⟨q, pdist consumer q.coord, false, false, 0⟩ := by
        exact (Option.some_inj.mp hg).symm
      rw [ht0q]
      exact ⟨hq, not_lt.mp hd⟩
  · rintro ⟨hm, hd⟩
    refine ⟨stepFourAssign phase_code lines
      (stepThreeFlag buildings consumer ⟨p, pdist consumer p.coord, false, false, 0⟩), ?_, ?_⟩
    · rw [List.mem_insertionSort]
      apply List.mem_map_of_mem
      apply List.mem_map_of_mem
      apply List.mem_filterMap.mpr
      exact ⟨p, hm, by rw [if_neg (not_lt.mpr hd)]⟩
    · rw [stepFourAssign_pole, stepThreeFlag_pole]

theorem pdist_gate400 : pdist ((1 : ℝ), (2 : ℝ)) (401, 2) = 400 :=
  pdist_eval 1 2 401 2 400 (by norm_num) (by norm_num)

theorem pdist_gate401 : pdist ((1 : ℝ), (2 : ℝ)) (402, 2) = 401 :=
  pdist_eval 1 2 402 2 401 (by norm_num) (by norm_num)

theorem singlePhase_single_pole (x y : ℝ) (pid : String) :
    singlePhasePoles [⟨pid, (x, y), none, none, none, false⟩]
        [⟨"W1", some "L", none, none, some pid, none⟩]
      = [⟨pid, (x, y), none, none, none, false⟩] := by
  unfold singlePhasePoles
  rw [List.foldl_cons, List.foldl_nil]
  rw [if_neg (by
    simp only [not_not]
    refine ⟨_, List.mem_cons_self _ _, Or.inl rfl⟩)]
  rw [if_neg (by simp)]
  rw [if_pos (by
    refine ⟨_, List.mem_cons_self _ _, Or.inl rfl, ?_⟩
    simp [lineIsHV])]

/-- C6: a phase-matched pole is kept as a candidate iff its straight-line
distance to the consumer is at most MAX_DISTANCE_LIMIT = 400 m; a candidate
at exactly 400 m is included, one at 401 m is excluded. -/
theorem C6_distance_gate (poles : List SPole) (lines : List SLine)
    (buildings : List BuildingE) (consumer : Pt) (phase_code : String) (p : SPole) :
    ((∃ t ∈ selectTargets poles lines buildings consumer phase_code, t.pole = p) ↔
      p ∈ phaseMatching poles lines phase_code ∧
        pdist consumer p.coord ≤ MAX_DISTANCE_LIMIT) ∧
    (∃ t ∈ selectTargets [⟨"P1", (401, 2), none, none, none, false⟩]
        [⟨"W1", some "L", none, none, some "P1", none⟩] [] (1, 2) "1",
      t.pole = ⟨"P1", (401, 2), none, none, none, false⟩) ∧
    ¬ (∃ t ∈ selectTargets [⟨"P2", (402, 2), none, none, none, false⟩]
        [⟨"W1", some "L", none, none, some "P2", none⟩] [] (1, 2) "1",
      t.pole = ⟨"P2", (402, 2), none, none, none, false⟩) := by
  refine ⟨selectTargets_mem poles lines buildings consumer phase_code p, ?_, ?_⟩
  · apply (selectTargets_mem _ _ _ _ _ _).mpr
    constructor
    · unfold phaseMatching
      rw [if_neg (by simp)]
      rw [singlePhase_single_pole]
      exact List.mem_singleton.mpr rfl
    · rw [pdist_gate400]
      norm_num [MAX_DISTANCE_LIMIT]
  · intro h
    have := ((selectTargets_mem _ _ _ _ _ _).mp h).2
    rw [pdist_gate401] at this
    norm_num [MAX_DISTANCE_LIMIT] at this

theorem stepFourPriority_flat (phase_code : String) (lines : List SLine) (p : SPole)
    (d : ℝ) :
    stepFourPriority phase_code lines p d =
      pyInt d +
        (if phase_code = "1" then
          (if connHasLv lines p.id then -100
           else if connHasHv lines p.id then 50 else 0)
         else
          ((if connHasHv3 lines p.id then -100
            else if connHasHv lines p.id then -50 else 0) +
           (if p.phase_code = some "3" then -20 else 0))) := by
  unfold stepFourPriority
  dsimp only
  split_ifs <;> first | omega | tauto

/-- C2 amended: for every selected candidate that is not Fast-Track, the
priority equals the truncated straight-line distance adjusted by the actual
connection rules (single-phase: minus 100 for an attached LV conductor, plus
50 for HV-only attachment; otherwise: minus 100 for a three-phase HV
conductor, else minus 50 for any HV conductor, and minus 20 more when the
pole itself is three-phase); the returned list is sorted ascending by
(priority, distance). -/
theorem C2_amended (poles : List SPole) (lines : List SLine) (buildings : List BuildingE)
    (consumer : Pt) (phase_code : String) :
    (∀ t ∈ selectTargets poles lines buildings consumer phase_code,
      t.is_fast_track = false →
        t.priority =
          pyInt t.distance_to_consumer +
            (if phase_code = "1" then
              (if connHasLv lines t.pole.id then -100
               else if connHasHv lines t.pole.id then 50 else 0)
             else
              ((if connHasHv3 lines t.pole.id then -100
                else if connHasHv lines t.pole.id then -50 else 0) +
               (if t.pole.phase_code = some "3" then -20 else 0)))) ∧
    (selectTargets poles lines buildings consumer phase_code).Sorted targetOrder := by
  constructor
  · intro t ht hft
    unfold selectTargets at ht
    dsimp only at ht
    rw [List.mem_insertionSort] at ht
    obtain ⟨t1, ht1, rfl⟩ := List.mem_map.mp ht
    unfold stepFourAssign at hft ⊢
    by_cases hf : t1.is_fast_track
    · rw [if_neg (by simpa using hf)] at hft ⊢
      exact absurd hft (by simp [hf])
    · rw [if_pos (by simpa using hf)] at hft ⊢
      exact stepFourPriority_flat phase_code lines t1.pole t1.distance_to_consumer
  · exact List.sorted_insertionSort targetOrder _

theorem selectTargets_eval_lv60 :
    selectTargets [⟨"P1", ((61 : ℝ), (2 : ℝ)), none, none, none, false⟩]
        [⟨"W1", some "L", none, none, some "P1", none⟩] [] (1, 2) "1"
      = [⟨⟨"P1", (61, 2), none, none, none, false⟩, 60, false, false, -40⟩] := by
  have hd : pdist ((1 : ℝ), (2 : ℝ)) (61, 2) = 60 :=
    pdist_eval 1 2 61 2 60 (by norm_num) (by norm_num)
  unfold selectTargets
  dsimp only
  rw [show phaseMatching [⟨"P1", ((61 : ℝ), (2 : ℝ)), none, none, none, false⟩]
      [⟨"W1", some "L", none, none, some "P1", none⟩] "1"
      = [⟨"P1", ((61 : ℝ), (2 : ℝ)), none, none, none, false⟩] by
    unfold phaseMatching
    rw [if_neg (by simp)]
    exact singlePhase_single_pole 61 2 "P1"]
  rw [List.filterMap_cons, List.filterMap_nil]
  dsimp only
  rw [hd, if_neg (by norm_num [MAX_DISTANCE_LIMIT])]
  rw [List.map_cons, List.map_nil, List.map_cons, List.map_nil]
  rw [show stepThreeFlag [] (1, 2)
      ⟨⟨"P1", ((61 : ℝ), (2 : ℝ)), none, none, none, false⟩, 60, false, false, 0⟩
      = ⟨⟨"P1", ((61 : ℝ), (2 : ℝ)), none, none, none, false⟩, 60, false, false, 0⟩ by
    unfold stepThreeFlag
    rw [if_neg (by norm_num [FAST_TRACK_DISTANCE])]]
  rw [show stepFourAssign "1" [⟨"W1", some "L", none, none, some "P1", none⟩]
      ⟨⟨"P1", ((61 : ℝ), (2 : ℝ)), none, none, none, false⟩, 60, false, false, 0⟩
      = ⟨⟨"P1", ((61 : ℝ), (2 : ℝ)), none, none, none, false⟩, 60, false, false, -40⟩ by
    unfold stepFourAssign
    rw [if_pos (by simp)]
    unfold stepFourPriority
    dsimp only
    rw [if_pos rfl]
    rw [if_pos (by
      refine ⟨_, List.mem_cons_self _ _, Or.inl rfl, ?_⟩
      simp [lineIsHV])]
    have hp : pyInt 60 = 60 := by
      unfold pyInt
      rw [if_pos (by norm_num)]
      norm_num
    rw [hp]
    norm_num]
  rfl

/-- C2 counterexample: a single-phase request with one LV-attached candidate
60 m away and no transformer.  The code ranks it with priority
int(60) - 100 = -40, while the claim scoring table gives 60 - 50 = 10. -/
theorem C2_counterexample :
    (selectTargets [⟨"P1", ((61 : ℝ), (2 : ℝ)), none, none, none, false⟩]
        [⟨"W1", some "L", none, none, some "P1", none⟩] [] (1, 2) "1"
      = [⟨⟨"P1", (61, 2), none, none, none, false⟩, 60, false, false, -40⟩]) ∧
    specScore "1" [⟨"W1", some "L", none, none, some "P1", none⟩]
        ⟨"P1", ((61 : ℝ), (2 : ℝ)), none, none, none, false⟩ 60 = 10 ∧
    (((-40 : ℤ) : ℝ) ≠ 10) := by
  refine ⟨selectTargets_eval_lv60, ?_, by norm_num⟩
  unfold specScore
  rw [if_neg (by simp), if_neg (by simp), if_neg (by simp)]
  rw [if_pos (by
    refine ⟨by simp, _, List.mem_cons_self _ _, Or.inl rfl, ?_⟩
    simp [lineIsHV])]
  norm_num

/-- C2 amended witness: the amended theorem applied to the concrete
single-phase scenario with the LV-attached candidate at 60 m. -/
theorem C2_amended_witness :
    (⟨⟨"P1", ((61 : ℝ), (2 : ℝ)), none, none, none, false⟩, 60, false, false,
        (-40 : ℤ)⟩ : STarget).priority =
      pyInt (60 : ℝ) +
        (if ("1" : String) = "1" then
          (if connHasLv [⟨"W1", some "L", none, none, some "P1", none⟩] "P1" then -100
           else if connHasHv [⟨"W1", some "L", none, none, some "P1", none⟩] "P1" then 50
           else 0)
         else
          ((if connHasHv3 [⟨"W1", some "L", none, none, some "P1", none⟩] "P1" then -100
            else if connHasHv [⟨"W1", some "L", none, none, some "P1", none⟩] "P1" then -50
            else 0) +
           (if (none : Option String) = some "3" then -20 else 0))) :=
  (C2_amended [⟨"P1", ((61 : ℝ), (2 : ℝ)), none, none, none, false⟩]
      [⟨"W1", some "L", none, none, some "P1", none⟩] [] (1, 2) "1").1
    ⟨⟨"P1", (61, 2), none, none, none, false⟩, 60, false, false, -40⟩
    (by rw [selectTargets_eval_lv60]; exact List.mem_singleton.mpr rfl) rfl

/-- C8 counterexample: a reachable non-Fast-Track 20 m path with a junction
5 m from the consumer.  The junction merges into (and replaces) the
consumer-end position inside the 10 m merge threshold, so the single new
pole sits at position 5 with cumulative distance 5, not at the consumer end
(position 0, cumulative distance 0) as the claim states. -/
theorem C8_counterexample :
    (allocate ⟨[((1 : ℝ), (2 : ℝ)), (6, 2), (9, 6), (15, 14)], 20, true, false⟩).new_poles
        = [⟨1, (6, 2), 5, true⟩] ∧ (5 : ℝ) ≠ 0 := by
  refine ⟨?_, by norm_num⟩
  simp only [allocate, Bool.not_true]
  rw [if_neg (by simp), if_neg (by simp), if_neg (by simp)]
  rw [allocPositions_kinked20]
  simp only [buildPoles, interpolate_kinked20, List.headD_cons, pdist_12_62]
  norm_num

/-! ### C10: edge weights and heuristic admissibility -/

theorem nearestEdgeStep_invariant (g : GGraph) (p : Pt) :
    ∀ (l : List GEdge) (acc : Option (GEdge × Pt × ℝ)),
      (∀ e1 np1 d1, acc = some (e1, np1, d1) → d1 = pdist p np1) →
      ∀ e0 np d, l.foldl (nearestEdgeStep g p) acc = some (e0, np, d) → d = pdist p np := by
  intro l
  induction l with
  | nil =>
    intro acc hacc e0 np d h
    exact hacc e0 np d h
  | cons x xs ih =>
    intro acc hacc e0 np d h
    rw [List.foldl_cons] at h
    refine ih (nearestEdgeStep g p acc x) ?_ e0 np d h
    intro e1 np1 d1 h1
    unfold nearestEdgeStep at h1
    split_ifs at h1 with hty
    · exact hacc e1 np1 d1 h1
    · rcases hcc : acc with _ | ⟨ea, npa, da⟩
      · rw [hcc] at h1
        dsimp only at h1
        simp only [Option.some_inj, Prod.mk.injEq] at h1
        obtain ⟨-, h2, h3⟩ := h1
        rw [← h3, h2]
      · rw [hcc] at h1
        dsimp only at h1
        split_ifs at h1 with hlt
        · simp only [Option.some_inj, Prod.mk.injEq] at h1
          obtain ⟨-, h2, h3⟩ := h1
          rw [← h3, h2]
        · exact hacc e1 np1 d1 (hcc ▸ h1)

theorem findNearestEdge_nonneg (g : GGraph) (p : Pt) (e0 : GEdge) (np : Pt) (d : ℝ)
    (h : findNearestEdge g p = some (e0, np, d)) : 0 ≤ d := by
  have := nearestEdgeStep_invariant g p g.edges none (by intro _ _ _ hh; simp at hh)
    e0 np d h
  rw [this]
  exact pdist_nonneg p np

theorem calcEdgeWeight_eq (d : ℝ) : calcEdgeWeight d = 126 * d := by
  unfold calcEdgeWeight WEIGHT_DISTANCE POLE_INTERVAL COST_POLE
  ring

/-- C10 amended: the weight function is 126 times the distance, so every edge
whose recorded distance is the Euclidean separation of its endpoints (all
road segment edges, and every edge added by _connect_point_to_road) has
weight at least that distance; the admissibility defect is only that the
node-reuse connection edge records the point-to-road distance, not the
separation from the reused node. -/
theorem C10_amended :
    (∀ d : ℝ, 0 ≤ d → calcEdgeWeight d = 126 * d ∧ d ≤ calcEdgeWeight d) ∧
    (∀ roads : List (List Pt), ∀ e ∈ roadEdges roads,
      ∃ a b, e.geomSeg = some (a, b) ∧ e.distance = pdist a b ∧
        pdist a b ≤ e.weight) ∧
    (∀ (g : GGraph) (point : Pt) (pid : String) (edges : List GEdge),
      connectPointToRoad g point pid = some edges →
      ∀ e ∈ edges, 0 ≤ e.distance ∧ e.weight = calcEdgeWeight e.distance ∧
        e.distance ≤ e.weight) := by
  refine ⟨?_, ?_, ?_⟩
  · intro d hd
    refine ⟨calcEdgeWeight_eq d, ?_⟩
    rw [calcEdgeWeight_eq]
    linarith
  · intro roads e he
    unfold roadEdges at he
    rw [List.mem_flatMap] at he
    obtain ⟨coords, -, he⟩ := he
    by_cases hlen : coords.length < 2
    · rw [if_pos hlen] at he
      exact absurd he (List.not_mem_nil e)
    · rw [if_neg hlen] at he
      obtain ⟨s, -, rfl⟩ := List.mem_map.mp he
      refine ⟨s.1, s.2, rfl, rfl, ?_⟩
      dsimp only
      rw [calcEdgeWeight_eq]
      have := pdist_nonneg s.1 s.2
      linarith
  · intro g point pid edges hconn e he
    unfold connectPointToRoad at hconn
    rcases hne : findNearestEdge g point with _ | ⟨e0, np, dmin⟩
    · rw [hne] at hconn
      exact absurd hconn (by simp)
    · rw [hne] at hconn
      dsimp only at hconn
      have hdmin : 0 ≤ dmin := findNearestEdge_nonneg g point e0 np dmin hne
      have hstep : ∀ dd : ℝ, 0 ≤ dd →
          0 ≤ dd ∧ calcEdgeWeight dd = calcEdgeWeight dd ∧ dd ≤ calcEdgeWeight dd := by
        intro dd hdd
        refine ⟨hdd, rfl, ?_⟩
        rw [calcEdgeWeight_eq]
        linarith
      split_ifs at hconn with h1 h2 h3
      · obtain rfl := Option.some_inj.mp hconn.symm
        rcases List.mem_singleton.mp he with rfl
        exact hstep dmin hdmin
      · obtain rfl := Option.some_inj.mp hconn.symm
        rcases List.mem_singleton.mp he with rfl
        exact hstep dmin hdmin
      · obtain rfl := Option.some_inj.mp hconn.symm
        simp only [List.mem_cons, List.not_mem_nil, or_false] at he
        rcases he with rfl | rfl | rfl
        · exact hstep dmin hdmin
        · exact hstep _ (pdist_nonneg _ _)
        · exact hstep _ (pdist_nonneg _ _)

/-- C10 counterexample: connecting the consumer at (1.9, 2) to the road from
(1, 2) to (11, 2) reuses node N1 (the attachment point (1.9, 2) is 0.9 m from
N1, within the 1 m merge tolerance), and the resulting connection edge records
distance 0 (point-to-road distance) and weight calcEdgeWeight 0 = 0, strictly
below the 0.9 m Euclidean separation of its endpoints — so this inserted
edge's weight is NOT at least the Euclidean length of its geometry. -/
theorem C10_counterexample :
    connectPointToRoad gC10 ((19:ℝ)/10, 2) "C" =
      some [⟨"C", "N1", 0, calcEdgeWeight 0, "connection", none⟩] ∧
    calcEdgeWeight 0 = 0 ∧
    pdist ((19:ℝ)/10, 2) (nodeCoord gC10 "N1") = 9/10 ∧
    calcEdgeWeight 0 < pdist ((19:ℝ)/10, 2) (nodeCoord gC10 "N1") := by
  have hN1 : nodeCoord gC10 "N1" = (1, 2) := rfl
  have hpd0 : pdist ((19:ℝ)/10, 2) ((19:ℝ)/10, 2) = 0 := by
    apply pdist_eval <;> norm_num
  have hpd9 : pdist ((19:ℝ)/10, 2) (1, 2) = 9/10 := by
    apply pdist_eval <;> norm_num
  have hnp : nearestPtOnSeg ((19:ℝ)/10, 2) (1, 2) (11, 2) = ((19:ℝ)/10, 2) := by
    unfold nearestPtOnSeg
    dsimp only
    rw [if_neg (by norm_num)]
    rw [show (((19:ℝ)/10 - 1) * (11 - 1) + (2 - 2) * (2 - 2)) / ((11 - 1) ^ 2 + (2 - 2) ^ 2) = 9/100 from by norm_num]
    rw [min_eq_right (by norm_num : (9:ℝ)/100 ≤ 1)]
    rw [max_eq_right (by norm_num : (0:ℝ) ≤ 9/100)]
    norm_num [Prod.mk.injEq]
  have hfind : findNearestEdge gC10 ((19:ℝ)/10, 2) =
      some (⟨"N1", "N2", 10, calcEdgeWeight 10, "road", some ((1, 2), (11, 2))⟩,
        ((19:ℝ)/10, 2), 0) := by
    unfold findNearestEdge gC10
    simp only [List.foldl_cons, List.foldl_nil]
    unfold nearestEdgeStep
    dsimp only
    rw [if_neg (by simp)]
    dsimp only [Option.getD_some]
    rw [hnp, hpd0]
  have hconn : connectPointToRoad gC10 ((19:ℝ)/10, 2) "C" =
      some [⟨"C", "N1", 0, calcEdgeWeight 0, "connection", none⟩] := by
    unfold connectPointToRoad
    rw [hfind]
    dsimp only
    rw [if_neg (by norm_num [ROAD_ACCESS_DISTANCE])]
    rw [hN1, hpd9]
    rw [if_pos (by norm_num)]
  refine ⟨hconn, ?_, ?_, ?_⟩
  · rw [calcEdgeWeight_eq]
    norm_num
  · rw [hN1, hpd9]
  · rw [hN1, hpd9, calcEdgeWeight_eq]
    norm_num

end AIDD
